import Mathlib

/-!
Verification development for the green-paths route-planner core:
a shallow embedding of the noise-exposure cost model
(`gp_server/app/noise_exposures.py`) and of the GraphML attribute codec
(`common/igraph.py`), together with proofs of the specified properties.

Numbers are modelled exactly, over a linear ordered field with a floor
(instantiated at ℚ for concrete computations and at ℝ where the
version-3 cost table needs real exponentiation).  Python's `round`
(banker's rounding to a given number of decimals) is modelled exactly by
`pyRound`.  Python dicts are modelled as insertion-ordered association
lists; `None` is modelled by `Option.none`; raising an exception is
modelled by `Except.error`.
-/

/-- Round a value to the nearest integer, ties to even: the rounding mode of
Python's builtin `round`. -/
def roundHalfEven {α : Type} [LinearOrderedField α] [FloorRing α] (x : α) : ℤ :=
  if Int.fract x < 1 / 2 then ⌊x⌋
  else if 1 / 2 < Int.fract x then ⌊x⌋ + 1
  else if ⌊x⌋ % 2 = 0 then ⌊x⌋ else ⌊x⌋ + 1

/-- Python's `round(x, ndigits)` for a non-negative number of digits. -/
def pyRound {α : Type} [LinearOrderedField α] [FloorRing α] (x : α) (ndigits : ℕ) : α :=
  ((roundHalfEven (x * (10 : α) ^ ndigits) : ℤ) : α) / (10 : α) ^ ndigits

/-! ## Noise exposure model (`gp_server/app/noise_exposures.py`)

A noise exposure map `Dict[int, float]` is an insertion-ordered association
list `List (ℤ × α)`; the surrounding `Union[dict, None]` is `Option`. -/

/-- `sum(noises.values())`. -/
def sum_values {α : Type} [LinearOrderedField α] (noises : List (ℤ × α)) : α :=
  (noises.map Prod.snd).sum

/-- Python dict lookup `d[k]`, as an `Option` (with `none` for a `KeyError`). -/
def dict_get {α : Type} (d : List (ℤ × α)) (k : ℤ) : Option α :=
  (d.find? (fun p => p.1 == k)).map Prod.snd

/-- The list `list(range(40, 80))` of dB keys of the cost tables. -/
def dbs : List ℤ := (List.range' 40 40).map (fun n : ℕ => (n : ℤ))

/-- `calc_db_cost_v2`: linear noise cost for a dB value. -/
noncomputable def calc_db_cost_v2 (db : ℤ) : ℝ :=
  if db ≤ 44 then 0
  else pyRound (((db : ℝ) - 40) / (75 - 40)) 3

/-- `calc_db_cost_v3`: noise cost for a dB value, doubling every 10 dB. -/
noncomputable def calc_db_cost_v3 (db : ℤ) : ℝ :=
  if db ≤ 44 then 0
  else pyRound ((10 : ℝ) ^ ((0.3 * (db : ℝ)) / 10) / 100) 3

/-- `get_db_costs(version)`: dB-specific noise cost coefficients, or a
`ValueError` for an unsupported version. -/
noncomputable def get_db_costs (version : ℤ) : Except String (List (ℤ × ℝ)) :=
  if version = 2 then .ok (dbs.map (fun db => (db, calc_db_cost_v2 db)))
  else if version = 3 then .ok (dbs.map (fun db => (db, calc_db_cost_v3 db)))
  else .error "Argument version must be either 2 or 3"

/-- The cost table `get_db_costs(2)` (the payload of the `ok` result). -/
noncomputable def v2_table : List (ℤ × ℝ) := (get_db_costs 2).toOption.getD []

/-- The cost table `get_db_costs(3)` (the payload of the `ok` result). -/
noncomputable def v3_table : List (ℤ × ℝ) := (get_db_costs 3).toOption.getD []

/-- `get_noise_cost_coeff(noises, db_costs)`: the noise cost coefficient.
`if not noises` covers both a `None` argument and an empty dict; a dB key
missing from `db_costs` raises a `KeyError` (the comprehension computing
`db_distance_cost` runs before `total_length` is tested). -/
def get_noise_cost_coeff {α : Type} [LinearOrderedField α] [FloorRing α]
    (noises : Option (List (ℤ × α))) (db_costs : List (ℤ × α)) : Except String α :=
  match noises with
  | none => .ok 0
  | some [] => .ok 0
  | some ns =>
    match ns.mapM (fun p => (dict_get db_costs p.1).map (fun c => c * p.2)) with
    | none => .error "KeyError"
    | some costs =>
      let db_distance_cost := costs.sum
      let total_length := sum_values ns
      if total_length ≠ 0 then .ok (pyRound (db_distance_cost / total_length) 3)
      else .ok 0

/-- `get_noise_exposure_index(noises, db_costs)`: the total noise cost. -/
def get_noise_exposure_index {α : Type} [LinearOrderedField α] [FloorRing α]
    (noises : Option (List (ℤ × α))) (db_costs : List (ℤ × α)) : Except String α :=
  match noises with
  | none => .ok 0
  | some [] => .ok 0
  | some ns =>
    match ns.mapM (fun p => (dict_get db_costs p.1).map (fun c => c * p.2)) with
    | none => .error "KeyError"
    | some costs => .ok (pyRound costs.sum 2)

/-- The `ValueError` message raised by `get_noise_adjusted_edge_cost` when the
total length of noise exposures does not match the edge length. -/
def integrity_error_msg : String :=
  "Total length of noise exposures is not equal to length, cannot calculate noise cost"

/-- `bike_time_cost if bike_time_cost else length`: the base cost falls back to
`length` for a `None` or zero (falsy) bike time cost. -/
def py_base_cost {α : Type} [LinearOrderedField α]
    (bike_time_cost : Option α) (length : α) : α :=
  match bike_time_cost with
  | some b => if b ≠ 0 then b else length
  | none => length

/-- `get_noise_adjusted_edge_cost(sensitivity, db_costs, noises, length,
bike_time_cost)`: composite edge cost, `base_cost` + noise cost. -/
def get_noise_adjusted_edge_cost {α : Type} [LinearOrderedField α] [FloorRing α]
    (sensitivity : α) (db_costs : List (ℤ × α)) (noises : Option (List (ℤ × α)))
    (length : α) (bike_time_cost : Option α := none) : Except String α :=
  match noises with
  | some ns =>
    if |length - sum_values ns| > 1 / 2 then .error integrity_error_msg
    else
      let base_cost := py_base_cost bike_time_cost length
      match get_noise_cost_coeff (some ns) db_costs with
      | .error e => .error e
      | .ok noise_cost_coeff =>
        .ok (pyRound (base_cost + base_cost * noise_cost_coeff * sensitivity) 2)
  | none =>
    let base_cost := py_base_cost bike_time_cost length
    -- set high noise costs for edges outside data coverage
    .ok (pyRound (base_cost + base_cost * 100 * sensitivity) 2)

/-- `get_total_noises_len(noises)`: total length of exposures. -/
def get_total_noises_len {α : Type} [LinearOrderedField α] [FloorRing α]
    (noises : List (ℤ × α)) : α :=
  if noises.isEmpty then 0 else pyRound (sum_values noises) 3

/-- `add_db_40_exp_to_noises(noises, length)`: gap-fill the exposure map with a
40 dB entry (ordered first) covering the length not covered by the map. -/
def add_db_40_exp_to_noises {α : Type} [LinearOrderedField α] [FloorRing α]
    (noises : Option (List (ℤ × α))) (length : α) : Option (List (ℤ × α)) :=
  match noises with
  | none => none
  | some ns =>
    if length = 0 then some ns
    else if (ns.map Prod.fst).contains 40 then some ns
    else
      let total_db_length := if ns.isEmpty then 0 else get_total_noises_len ns
      let db_40_len := pyRound (length - total_db_length) 2
      if db_40_len ≠ 0 then some ((40, db_40_len) :: ns) else some ns


/-! ## Attribute value codec (`common/igraph.py`)

Attribute values are encoded by `as_string` (Python `str`, except booleans)
and decoded by the `to_*` converters.  The Python value universe that the
converter registry actually handles is modelled by `PyValue`: `None`,
booleans, ints, floats (as exact decimal literals `m / 10^e`, the form
`str` prints and `float` parses — scientific notation is out of scope),
strings, dicts of int/string keys and int/float values (`noises`,
`noise_sources`), int pairs (`uv`) and opaque WKT geometries.
`int(...)`, `float(...)` and `ast.literal_eval(...)` are modelled by
executable parsers over the character list of the wire string. -/

def quoteChar : Char := Char.ofNat 39

def lbraceChar : Char := Char.ofNat 123

def rbraceChar : Char := Char.ofNat 125

def digitChar (d : ℕ) : Char :=
  if d = 0 then '0' else if d = 1 then '1' else if d = 2 then '2' else if d = 3 then '3'
  else if d = 4 then '4' else if d = 5 then '5' else if d = 6 then '6' else if d = 7 then '7'
  else if d = 8 then '8' else '9'

def isDigitChar (c : Char) : Bool :=
  c == '0' || c == '1' || c == '2' || c == '3' || c == '4' || c == '5' || c == '6' ||
    c == '7' || c == '8' || c == '9'

def digitVal (c : Char) : ℕ :=
  if c == '1' then 1 else if c == '2' then 2 else if c == '3' then 3 else if c == '4' then 4
  else if c == '5' then 5 else if c == '6' then 6 else if c == '7' then 7
  else if c == '8' then 8 else if c == '9' then 9 else 0

/-- Little-endian decimal digits, with explicit fuel so that the definition
is structurally recursive (and kernel-reducible). -/
def digitsLEAux : ℕ → ℕ → List ℕ
  | 0, _ => []
  | fuel + 1, n => if n = 0 then [] else (n % 10) :: digitsLEAux fuel (n / 10)

/-- Little-endian decimal digits of a natural number (empty for 0). -/
def digitsLE (n : ℕ) : List ℕ := digitsLEAux n n

/-- Big-endian decimal digits, with `[0]` for 0. -/
def natDigitsBE (n : ℕ) : List ℕ := if n = 0 then [0] else (digitsLE n).reverse

/-- The decimal representation of a natural number, as `str` prints it. -/
def natRepr (n : ℕ) : List Char := (natDigitsBE n).map digitChar

/-- The decimal representation of an integer, as `str` prints it. -/
def intRepr (n : ℤ) : List Char :=
  if n < 0 then '-' :: natRepr n.natAbs else natRepr n.natAbs

/-- Pad a digit list with leading zeros to length at least `k`. -/
def padDigits (ds : List ℕ) (k : ℕ) : List ℕ := List.replicate (k - ds.length) 0 ++ ds

/-- The decimal representation of the float `m / 10^e` printed with exactly
`e` digits after the decimal point. -/
def floatReprCore (m : ℤ) (e : ℕ) : List Char :=
  let ds := padDigits (natDigitsBE m.natAbs) (e + 1)
  let intPart := (ds.take (ds.length - e)).map digitChar
  let fracPart := (ds.drop (ds.length - e)).map digitChar
  (if m < 0 then ['-'] else []) ++ intPart ++ '.' :: fracPart

/-- The representation `str` prints for the float `m / 10^e`: always with a
decimal point, so an integral float (`e = 0`) prints a trailing `.0`. -/
def floatRepr (m : ℤ) (e : ℕ) : List Char :=
  if e = 0 then floatReprCore (10 * m) 1 else floatReprCore m e

/-- A scalar Python literal: an int or a float (decimal literal `m / 10^e`). -/
inductive PyScalar where
  | sint (n : ℤ)
  | sfloat (m : ℤ) (e : ℕ)
deriving DecidableEq

/-- A dict key handled by the codec: an int or a string. -/
inductive PyKey where
  | kint (n : ℤ)
  | kstr (s : String)
deriving DecidableEq

/-- The Python values the attribute codec handles. -/
inductive PyValue where
  | pynone
  | pybool (b : Bool)
  | pyint (n : ℤ)
  | pyfloat (m : ℤ) (e : ℕ)
  | pystr (s : String)
  | pydict (entries : List (PyKey × PyScalar))
  | pytuple (a b : ℤ)
  | pygeom (wkt : String)
deriving DecidableEq

def scalarRepr : PyScalar → List Char
  | .sint n => intRepr n
  | .sfloat m e => floatRepr m e

def keyRepr : PyKey → List Char
  | .kint n => intRepr n
  | .kstr s => quoteChar :: (s.data ++ [quoteChar])

/-- `str` of the entries of a non-empty dict, including the final brace. -/
def entriesRepr : List (PyKey × PyScalar) → List Char
  | [] => [rbraceChar]
  | (k, v) :: rest =>
    keyRepr k ++ ':' :: ' ' :: (scalarRepr v ++
      match rest with
      | [] => [rbraceChar]
      | _ :: _ => ',' :: ' ' :: entriesRepr rest)

/-- `str` of a dict. -/
def dictRepr (l : List (PyKey × PyScalar)) : List Char :=
  match l with
  | [] => [lbraceChar, rbraceChar]
  | _ :: _ => lbraceChar :: entriesRepr l

/-- `str` of a pair tuple of ints. -/
def tupleRepr (a b : ℤ) : List Char :=
  '(' :: (intRepr a ++ ',' :: ' ' :: (intRepr b ++ [')']))

/-- Python `str(value)`. -/
def pyStr : PyValue → List Char
  | .pynone => ['N', 'o', 'n', 'e']
  | .pybool b => if b then ['T', 'r', 'u', 'e'] else ['F', 'a', 'l', 's', 'e']
  | .pyint n => intRepr n
  | .pyfloat m e => floatRepr m e
  | .pystr s => s.data
  | .pydict l => dictRepr l
  | .pytuple a b => tupleRepr a b
  | .pygeom w => w.data

/-- `as_string(value)`: booleans encode as `"1"`/`"0"`, everything else by
`str(value)`. -/
def as_string (value : PyValue) : String :=
  match value with
  | .pybool b => if b then "1" else "0"
  | v => String.mk (pyStr v)

/-- Greedily consume decimal digits, accumulating their value. -/
def parseDigits (acc : ℕ) : List Char → ℕ × List Char
  | [] => (acc, [])
  | c :: cs => if isDigitChar c then parseDigits (10 * acc + digitVal c) cs else (acc, c :: cs)

/-- Consume one or more decimal digits. -/
def parseNat (cs : List Char) : Option (ℕ × List Char) :=
  match cs with
  | [] => none
  | c :: rest => if isDigitChar c then some (parseDigits (digitVal c) rest) else none

/-- Python `int(...)` over a prefix: optional sign then digits. -/
def parseInt (cs : List Char) : Option (ℤ × List Char) :=
  match cs with
  | [] => none
  | c :: rest =>
    if c = '-' then (parseNat rest).map (fun p => (-(p.1 : ℤ), p.2))
    else (parseNat cs).map (fun p => ((p.1 : ℤ), p.2))

/-- Greedily consume fraction digits, accumulating value and count. -/
def parseFrac (accv : ℕ) (acce : ℕ) : List Char → (ℕ × ℕ) × List Char
  | [] => ((accv, acce), [])
  | c :: cs =>
    if isDigitChar c then parseFrac (10 * accv + digitVal c) (acce + 1) cs
    else ((accv, acce), c :: cs)

/-- An unsigned decimal number: int digits and an optional fraction. -/
def parseUNumber (cs : List Char) : Option (PyScalar × List Char) :=
  match parseNat cs with
  | none => none
  | some (a, rest) =>
    match rest with
    | [] => some (.sint (a : ℤ), [])
    | c :: rest2 =>
      if c = '.' then
        match rest2 with
        | [] => none
        | c2 :: _ =>
          if isDigitChar c2 then
            match parseFrac 0 0 rest2 with
            | ((f, e), rest3) => some (.sfloat ((a * 10 ^ e + f : ℕ) : ℤ) e, rest3)
          else none
      else some (.sint (a : ℤ), c :: rest2)

def negScalar : PyScalar → PyScalar
  | .sint n => .sint (-n)
  | .sfloat m e => .sfloat (-m) e

/-- A signed decimal number (int or float literal). -/
def parseNumber (cs : List Char) : Option (PyScalar × List Char) :=
  match cs with
  | [] => none
  | c :: rest =>
    if c = '-' then (parseUNumber rest).map (fun p => (negScalar p.1, p.2))
    else parseUNumber cs

/-- Python `float(...)` over a prefix (plain decimal notation). -/
def parseFloat (cs : List Char) : Option ((ℤ × ℕ) × List Char) :=
  match parseNumber cs with
  | some (.sfloat m e, rest) => some ((m, e), rest)
  | some (.sint n, rest) => some ((n, 0), rest)
  | none => none

/-- A dict key literal: a quoted string or an int. -/
def parseKey (cs : List Char) : Option (PyKey × List Char) :=
  match cs with
  | [] => none
  | c :: rest =>
    if c = quoteChar then
      let s := rest.takeWhile (fun x => x != quoteChar)
      match rest.dropWhile (fun x => x != quoteChar) with
      | q :: rest2 => if q = quoteChar then some (.kstr (String.mk s), rest2) else none
      | [] => none
    else (parseInt cs).map (fun p => (.kint p.1, p.2))

/-- The entries of a non-empty dict literal, up to and including the closing
brace; `fuel` bounds the number of entries. -/
def parseEntries : ℕ → List Char → Option (List (PyKey × PyScalar) × List Char)
  | 0, _ => none
  | fuel + 1, cs =>
    match parseKey cs with
    | none => none
    | some (k, cs1) =>
      match cs1 with
      | c1 :: c2 :: cs2 =>
        if c1 = ':' ∧ c2 = ' ' then
          match parseNumber cs2 with
          | none => none
          | some (v, cs3) =>
            match cs3 with
            | [] => none
            | c :: cs4 =>
              if c = rbraceChar then some ([(k, v)], cs4)
              else
                match cs4 with
                | [] => none
                | c5 :: cs5 =>
                  if c = ',' ∧ c5 = ' ' then
                    match parseEntries fuel cs5 with
                    | none => none
                    | some (l, rest) => some ((k, v) :: l, rest)
                  else none
        else none
      | _ => none

/-- A dict literal. -/
def parseDict (cs : List Char) : Option (PyValue × List Char) :=
  match cs with
  | [] => none
  | c :: rest =>
    if c = lbraceChar then
      match rest with
      | [] => none
      | c2 :: rest2 =>
        if c2 = rbraceChar then some (.pydict [], rest2)
        else (parseEntries rest.length rest).map (fun p => (.pydict p.1, p.2))
    else none

/-- A pair-tuple literal of two ints. -/
def parseTuple (cs : List Char) : Option (PyValue × List Char) :=
  match cs with
  | [] => none
  | c :: rest =>
    if c = '(' then
      match parseInt rest with
      | none => none
      | some (a, r1) =>
        match r1 with
        | c1 :: c2 :: r2 =>
          if c1 = ',' ∧ c2 = ' ' then
            match parseInt r2 with
            | none => none
            | some (b, r3) =>
              match r3 with
              | [] => none
              | c3 :: r4 => if c3 = ')' then some (.pytuple a b, r4) else none
          else none
        | _ => none
    else none

/-- A quoted string literal (no escapes). -/
def parseStrLit (cs : List Char) : Option (PyValue × List Char) :=
  match cs with
  | [] => none
  | c :: rest =>
    if c = quoteChar then
      let s := rest.takeWhile (fun x => x != quoteChar)
      match rest.dropWhile (fun x => x != quoteChar) with
      | q :: rest2 => if q = quoteChar then some (.pystr (String.mk s), rest2) else none
      | [] => none
    else none

/-- `ast.literal_eval(...)` on the literal forms the codec produces:
`None`, `True`/`False`, numbers, strings, dicts and pair tuples. -/
def literalEval (s : String) : Option PyValue :=
  if s = "None" then some .pynone
  else if s = "True" then some (.pybool true)
  else if s = "False" then some (.pybool false)
  else
    match s.data with
    | [] => none
    | c :: _ =>
      if c = lbraceChar then
        match parseDict s.data with
        | some (v, []) => some v
        | _ => none
      else if c = '(' then
        match parseTuple s.data with
        | some (v, []) => some v
        | _ => none
      else if c = quoteChar then
        match parseStrLit s.data with
        | some (v, []) => some v
        | _ => none
      else
        match parseNumber s.data with
        | some (sc, []) =>
          some (match sc with
            | .sint n => .pyint n
            | .sfloat m e => .pyfloat m e)
        | _ => none

/-- Decidable equality for `Except`, for evaluating the codec on concrete
inputs. -/
instance {ε α : Type} [DecidableEq ε] [DecidableEq α] : DecidableEq (Except ε α) := fun x y =>
  match x, y with
  | .ok a, .ok b =>
    if h : a = b then .isTrue (by rw [h])
    else .isFalse (fun hc => h (Except.ok.inj hc))
  | .error a, .error b =>
    if h : a = b then .isTrue (by rw [h])
    else .isFalse (fun hc => h (Except.error.inj hc))
  | .ok _, .error _ => .isFalse (fun hc => Except.noConfusion hc)
  | .error _, .ok _ => .isFalse (fun hc => Except.noConfusion hc)

/-- `to_str`: identity on strings, with the sentinel `'None'` decoding to
null. -/
def to_str (value : String) : Option String :=
  if value ≠ "None" then some value else none

/-- `to_int`: `int(value)`, with the sentinel `'None'` decoding to null and a
`ValueError` on malformed input. -/
def to_int (value : String) : Except String (Option ℤ) :=
  if value ≠ "None" then
    match parseInt value.data with
    | some (n, []) => .ok (some n)
    | _ => .error "ValueError: invalid literal for int"
  else .ok none

/-- `to_float`: `float(value)`, with the sentinel `'None'` decoding to null
and a `ValueError` on malformed input. -/
def to_float (value : String) : Except String (Option (ℤ × ℕ)) :=
  if value ≠ "None" then
    match parseFloat value.data with
    | some (me, []) => .ok (some me)
    | _ => .error "ValueError: could not convert string to float"
  else .ok none

/-- `to_bool`: a 1-character fast path compares against `'1'`; any longer
value goes through `ast.literal_eval`. -/
def to_bool (value : String) : Except String PyValue :=
  if value.length = 1 then .ok (.pybool (value == "1"))
  else
    match literalEval value with
    | some v => .ok v
    | none => .error "ValueError: malformed literal"

/-- `to_dict`: `ast.literal_eval(value)`, with the sentinel `'None'` decoding
to null. -/
def to_dict (value : String) : Except String PyValue :=
  if value ≠ "None" then
    match literalEval value with
    | some v => .ok v
    | none => .error "ValueError: malformed literal"
  else .ok .pynone

/-- `to_tuple`: textually the same body as `to_dict` in the source. -/
def to_tuple (value : String) : Except String PyValue :=
  if value ≠ "None" then
    match literalEval value with
    | some v => .ok v
    | none => .error "ValueError: malformed literal"
  else .ok .pynone

/-- A key string is printable and re-parsable when it holds no quote
character. -/
def validKey : PyKey → Bool
  | .kint _ => true
  | .kstr s => !(s.data.contains quoteChar)

/-- A float literal round-trips when it has at least one fraction digit
(which is how `str` always prints floats). -/
def validScalar : PyScalar → Bool
  | .sint _ => true
  | .sfloat _ e => decide (1 ≤ e)

def validEntries (l : List (PyKey × PyScalar)) : Bool :=
  l.all (fun p => validKey p.1 && validScalar p.2)


/-! ## Graph model and GraphML import/export (`common/igraph.py`)

An igraph graph is modelled by its vertex/edge counts and its column-wise
attribute tables (igraph stores one value list per attribute name).  A
mutable Python graph object is an index into a store `List Graph`;
`G.copy()` appends a copy, and attribute assignment/deletion update the
store in place.  `wkt.loads` (shapely) is an external collaborator, so the
geometry converter is a parameter `geomParse` of the import. -/

structure Graph where
  numVs : ℕ
  numEs : ℕ
  vsAttrs : List (String × List PyValue)
  esAttrs : List (String × List PyValue)
deriving DecidableEq

def getCol (attrs : List (String × List PyValue)) (k : String) : Option (List PyValue) :=
  (attrs.find? (fun p => p.1 == k)).map Prod.snd

def setCol (attrs : List (String × List PyValue)) (k : String) (col : List PyValue) :
    List (String × List PyValue) :=
  attrs.map (fun p => if p.1 == k then (k, col) else p)

def delCol (attrs : List (String × List PyValue)) (k : String) :
    List (String × List PyValue) :=
  attrs.filter (fun p => p.1 != k)

def getVsCol (G : Graph) (k : String) : Option (List PyValue) := getCol G.vsAttrs k

def setVsCol (G : Graph) (k : String) (col : List PyValue) : Graph :=
  { G with vsAttrs := setCol G.vsAttrs k col }

def delVsCol (G : Graph) (k : String) : Graph :=
  { G with vsAttrs := delCol G.vsAttrs k }

def vsAttrNames (G : Graph) : List String := G.vsAttrs.map Prod.fst

def getEsCol (G : Graph) (k : String) : Option (List PyValue) := getCol G.esAttrs k

def setEsCol (G : Graph) (k : String) (col : List PyValue) : Graph :=
  { G with esAttrs := setCol G.esAttrs k col }

def delEsCol (G : Graph) (k : String) : Graph :=
  { G with esAttrs := delCol G.esAttrs k }

def esAttrNames (G : Graph) : List String := G.esAttrs.map Prod.fst

/-- The wire keys of the `Node` enum, in declaration order. -/
def node_attr_values : List String :=
  ["ii", "io", "no", "geom", "geom_wgs", "b_tw", "b_tb", "tl"]

/-- The wire keys of the `Edge` enum, in declaration order. -/
def edge_attr_values : List String :=
  ["ii", "io", "iw", "uv", "no", "geom", "geom_wgs", "l", "c_bt", "c_bs", "ec", "sc",
   "b_st", "b_ntt", "b_aw", "b_ab", "b_tw", "b_tb", "bsf", "n", "ns", "nss", "aqi",
   "g_gsv", "g_lv", "g_hv", "g_gsv_v", "g_gsv_hv", "g"]

/-- `[as_string(value) for value in ...]`: stringify one attribute column. -/
def stringify_column (col : List PyValue) : List PyValue :=
  col.map (fun v => .pystr (as_string v))

/-- The export loop over all registered node attributes (no subset given):
stringify every registered attribute present on the working copy `gc`.
`Gc.vs[0].attributes()` raises on a graph with no vertices. -/
def export_node_attrs_all (gc : ℕ) : List String → List Graph → List Graph × Option String
  | [], σ => (σ, none)
  | a :: rest, σ =>
    match σ.get? gc with
    | none => (σ, some "invalid graph reference")
    | some Gc =>
      if Gc.numVs = 0 then (σ, some "IndexError: vertex 0")
      else
        match getVsCol Gc a with
        | some col =>
          export_node_attrs_all gc rest (σ.set gc (setVsCol Gc a (stringify_column col)))
        | none => export_node_attrs_all gc rest σ

/-- The export loop over an explicit node-attribute subset: stringify each
requested attribute; a missing attribute raises a `KeyError`. -/
def export_node_attrs_selected (gc : ℕ) :
    List String → List Graph → List Graph × Option String
  | [], σ => (σ, none)
  | a :: rest, σ =>
    match σ.get? gc with
    | none => (σ, some "invalid graph reference")
    | some Gc =>
      match getVsCol Gc a with
      | none => (σ, some "KeyError")
      | some col =>
        export_node_attrs_selected gc rest (σ.set gc (setVsCol Gc a (stringify_column col)))

/-- Delete from the working copy every node attribute of the original graph
that was not requested. -/
def delete_node_attrs (gc : ℕ) (keep : List String) :
    List String → List Graph → List Graph × Option String
  | [], σ => (σ, none)
  | a :: rest, σ =>
    match σ.get? gc with
    | none => (σ, some "invalid graph reference")
    | some Gc =>
      if keep.contains a then delete_node_attrs gc keep rest σ
      else delete_node_attrs gc keep rest (σ.set gc (delVsCol Gc a))

def export_edge_attrs_all (gc : ℕ) : List String → List Graph → List Graph × Option String
  | [], σ => (σ, none)
  | a :: rest, σ =>
    match σ.get? gc with
    | none => (σ, some "invalid graph reference")
    | some Gc =>
      if Gc.numEs = 0 then (σ, some "IndexError: edge 0")
      else
        match getEsCol Gc a with
        | some col =>
          export_edge_attrs_all gc rest (σ.set gc (setEsCol Gc a (stringify_column col)))
        | none => export_edge_attrs_all gc rest σ

def export_edge_attrs_selected (gc : ℕ) :
    List String → List Graph → List Graph × Option String
  | [], σ => (σ, none)
  | a :: rest, σ =>
    match σ.get? gc with
    | none => (σ, some "invalid graph reference")
    | some Gc =>
      match getEsCol Gc a with
      | none => (σ, some "KeyError")
      | some col =>
        export_edge_attrs_selected gc rest (σ.set gc (setEsCol Gc a (stringify_column col)))

def delete_edge_attrs (gc : ℕ) (keep : List String) :
    List String → List Graph → List Graph × Option String
  | [], σ => (σ, none)
  | a :: rest, σ =>
    match σ.get? gc with
    | none => (σ, some "invalid graph reference")
    | some Gc =>
      if keep.contains a then delete_edge_attrs gc keep rest σ
      else delete_edge_attrs gc keep rest (σ.set gc (delEsCol Gc a))

/-- The node phase of the export: with no subset given, stringify every
registered attribute found on the copy; with a subset, stringify exactly the
requested attributes and then delete every other original attribute
(`origNames` are the attribute names of the graph being exported). -/
def export_node_phase (gc : ℕ) (n_attrs origNames : List String)
    (σ : List Graph) : List Graph × Option String :=
  if n_attrs.isEmpty then export_node_attrs_all gc node_attr_values σ
  else
    match export_node_attrs_selected gc n_attrs σ with
    | (σ2, some e) => (σ2, some e)
    | (σ2, none) => delete_node_attrs gc n_attrs origNames σ2

def export_edge_phase (gc : ℕ) (e_attrs origNames : List String)
    (σ : List Graph) : List Graph × Option String :=
  if e_attrs.isEmpty then export_edge_attrs_all gc edge_attr_values σ
  else
    match export_edge_attrs_selected gc e_attrs σ with
    | (σ2, some e) => (σ2, some e)
    | (σ2, none) => delete_edge_attrs gc e_attrs origNames σ2

/-- `export_to_graphml(G, graph_file, n_attrs, e_attrs)`: work on the copy
`Gc = G.copy()` (a fresh index in the store); the node phase then the edge
phase transform the copy, short-circuiting on a raised error; finally
`Gc.save(...)` writes the file (I/O at the boundary, no store effect).
Returns the final store and the error, if one was raised. -/
def export_to_graphml (σ : List Graph) (g : ℕ) (n_attrs : List String)
    (e_attrs : List String) : List Graph × Option String :=
  match σ.get? g with
  | none => (σ, some "invalid graph reference")
  | some G =>
    match export_node_phase σ.length n_attrs (vsAttrNames G) (σ ++ [G]) with
    | (σ2, some e) => (σ2, some e)
    | (σ2, none) => export_edge_phase σ.length e_attrs (esAttrNames G) σ2

/-- Wrap `to_int` into a converter producing a typed attribute value. -/
def conv_to_int (s : String) : Except String PyValue :=
  (to_int s).map (fun o =>
    match o with
    | some n => .pyint n
    | none => .pynone)

def conv_to_str (s : String) : Except String PyValue :=
  match to_str s with
  | some t => .ok (.pystr t)
  | none => .ok .pynone

def conv_to_float (s : String) : Except String PyValue :=
  (to_float s).map (fun o =>
    match o with
    | some me => .pyfloat me.1 me.2
    | none => .pynone)

/-- `__value_converter_by_node_attribute`, keyed by wire key; `none` models a
wire key that is not a `Node` member (a `ValueError` from `Node(attr)`,
caught by the import loop). -/
def value_converter_by_node_attribute (geomParse : String → Except String PyValue)
    (a : String) : Option (String → Except String PyValue) :=
  if a = "ii" then some conv_to_int
  else if a = "io" then some conv_to_str
  else if a = "no" then some conv_to_str
  else if a = "geom" then some geomParse
  else if a = "geom_wgs" then some geomParse
  else if a = "b_tw" then some to_bool
  else if a = "b_tb" then some to_bool
  else if a = "tl" then some to_bool
  else none

/-- `__value_converter_by_edge_attribute`, keyed by wire key. -/
def value_converter_by_edge_attribute (geomParse : String → Except String PyValue)
    (a : String) : Option (String → Except String PyValue) :=
  if a = "ii" then some conv_to_int
  else if a = "io" then some conv_to_str
  else if a = "iw" then some conv_to_int
  else if a = "uv" then some to_tuple
  else if a = "no" then some conv_to_str
  else if a = "geom" then some geomParse
  else if a = "geom_wgs" then some geomParse
  else if a = "l" then some conv_to_float
  else if a = "c_bt" then some conv_to_float
  else if a = "c_bs" then some conv_to_float
  else if a = "ec" then some conv_to_str
  else if a = "sc" then some conv_to_str
  else if a = "b_st" then some to_bool
  else if a = "b_ntt" then some to_bool
  else if a = "b_aw" then some to_bool
  else if a = "b_ab" then some to_bool
  else if a = "b_tw" then some to_bool
  else if a = "b_tb" then some to_bool
  else if a = "bsf" then some conv_to_float
  else if a = "n" then some to_dict
  else if a = "ns" then some conv_to_str
  else if a = "nss" then some to_dict
  else if a = "aqi" then some conv_to_float
  else if a = "g_gsv" then some conv_to_float
  else if a = "g_lv" then some conv_to_float
  else if a = "g_hv" then some conv_to_float
  else if a = "g_gsv_v" then some conv_to_float
  else if a = "g_gsv_hv" then some conv_to_float
  else if a = "g" then some conv_to_float
  else none

/-- `[converter(value) for value in list(...)]`: the whole comprehension is
evaluated before the column is assigned, so any exception leaves the column
untouched (`none` here). -/
def convert_column (conv : String → Except String PyValue) (col : List PyValue) :
    Option (List PyValue) :=
  col.mapM (fun v =>
    match v with
    | .pystr s => (conv s).toOption
    | _ => none)

/-- The import loop over the node attribute names discovered on the first
vertex: convert each column, leaving it untouched (with a logged warning)
when the wire key has no registered converter or any value fails to decode. -/
def read_node_attrs (geomParse : String → Except String PyValue) :
    List String → Graph → List String → Graph × List String
  | [], G, warns => (G, warns)
  | a :: rest, G, warns =>
    match value_converter_by_node_attribute geomParse a with
    | none => read_node_attrs geomParse rest G
        (warns ++ ["Failed to read node attribute " ++ a])
    | some conv =>
      match getVsCol G a with
      | none => read_node_attrs geomParse rest G
          (warns ++ ["Failed to read node attribute " ++ a])
      | some col =>
        match convert_column conv col with
        | none => read_node_attrs geomParse rest G
            (warns ++ ["Failed to read node attribute " ++ a])
        | some newCol => read_node_attrs geomParse rest (setVsCol G a newCol) warns

def read_edge_attrs (geomParse : String → Except String PyValue) :
    List String → Graph → List String → Graph × List String
  | [], G, warns => (G, warns)
  | a :: rest, G, warns =>
    match value_converter_by_edge_attribute geomParse a with
    | none => read_edge_attrs geomParse rest G
        (warns ++ ["Failed to read edge attribute " ++ a])
    | some conv =>
      match getEsCol G a with
      | none => read_edge_attrs geomParse rest G
          (warns ++ ["Failed to read edge attribute " ++ a])
      | some col =>
        match convert_column conv col with
        | none => read_edge_attrs geomParse rest G
            (warns ++ ["Failed to read edge attribute " ++ a])
        | some newCol => read_edge_attrs geomParse rest (setEsCol G a newCol) warns

/-- `read_graphml(graph_file, log)`: drop the raw `id` column, then convert
node and edge attribute columns, probing the schema on `G.vs[0]` and
`G.es[0]` (which raises an `IndexError` on an empty collection).  The result
carries the converted graph and the logged warnings. -/
def read_graphml (geomParse : String → Except String PyValue) (G0 : Graph) :
    Except String (Graph × List String) :=
  match getVsCol G0 "id" with
  | none => .error "KeyError: id"
  | some _ =>
    if (delVsCol G0 "id").numVs = 0 then .error "IndexError: vertex 0"
    else
      match read_node_attrs geomParse (vsAttrNames (delVsCol G0 "id"))
          (delVsCol G0 "id") [] with
      | (G2, w1) =>
        if G2.numEs = 0 then .error "IndexError: edge 0"
        else
          match read_edge_attrs geomParse (esAttrNames G2) G2 w1 with
          | (G3, w2) => .ok (G3, w2)

/-- The decode outcome for one node attribute key: `none` when the wire key
has no registered converter or any single value fails to decode. -/
def nodeDecode (geomParse : String → Except String PyValue) (G : Graph) (a : String) :
    Option (List PyValue) :=
  (value_converter_by_node_attribute geomParse a).bind
    (fun conv => (getVsCol G a).bind (fun col => convert_column conv col))

def edgeDecode (geomParse : String → Except String PyValue) (G : Graph) (a : String) :
    Option (List PyValue) :=
  (value_converter_by_edge_attribute geomParse a).bind
    (fun conv => (getEsCol G a).bind (fun col => convert_column conv col))

/-- A geometry parser stub that always fails, standing in for `wkt.loads`
on non-geometry inputs in concrete runs. -/
def geomFail : String → Except String PyValue := fun _ => Except.error "wkt"

/-- A small concrete graph exercising the import: a decodable node column
(`ii`), an unrecognized node column (`zz`) and a decodable edge column
(`l`), plus the raw `id` column. -/
def importSample : Graph :=
  ⟨1, 1,
   [("id", [PyValue.pystr "7"]), ("ii", [PyValue.pystr "3"]),
    ("zz", [PyValue.pystr "x"])],
   [("l", [PyValue.pystr "2.5"])]⟩

/-! ## Properties of the rounding model -/

theorem roundHalfEven_le {α : Type} [LinearOrderedField α] [FloorRing α] (x : α) :
    (roundHalfEven x : α) ≤ x + 1 / 2 := by
  unfold roundHalfEven
  have h1 := Int.floor_le x
  have h2 := Int.lt_floor_add_one x
  split_ifs with ha hb hc
  · linarith
  · have ha' := le_of_not_lt ha
    simp only [Int.fract] at ha'
    push_cast
    linarith
  · linarith
  · have ha' := le_of_not_lt ha
    simp only [Int.fract] at ha'
    push_cast
    linarith

theorem le_roundHalfEven {α : Type} [LinearOrderedField α] [FloorRing α] (x : α) :
    x - 1 / 2 ≤ (roundHalfEven x : α) := by
  unfold roundHalfEven
  have h1 := Int.floor_le x
  have h2 := Int.lt_floor_add_one x
  split_ifs with ha hb hc
  · simp only [Int.fract] at ha
    linarith
  · push_cast
    linarith
  · have hb' := le_of_not_lt hb
    simp only [Int.fract] at hb'
    linarith
  · push_cast
    linarith

theorem roundHalfEven_mono {α : Type} [LinearOrderedField α] [FloorRing α] {x y : α}
    (h : x ≤ y) : roundHalfEven x ≤ roundHalfEven y := by
  by_contra hlt
  push_neg at hlt
  have hc : ((roundHalfEven y : ℤ) : α) + 1 ≤ ((roundHalfEven x : ℤ) : α) := by
    exact_mod_cast Int.add_one_le_iff.mpr hlt
  have h2 := roundHalfEven_le x
  have h3 := le_roundHalfEven y
  have hxy : y ≤ x := by linarith
  have hee : x = y := le_antisymm h hxy
  subst hee
  exact lt_irrefl _ hlt

theorem pyRound_mono {α : Type} [LinearOrderedField α] [FloorRing α] (d : ℕ) {x y : α}
    (h : x ≤ y) : pyRound x d ≤ pyRound y d := by
  unfold pyRound
  have hp : (0 : α) < 10 ^ d := by positivity
  have hm : roundHalfEven (x * 10 ^ d) ≤ roundHalfEven (y * 10 ^ d) :=
    roundHalfEven_mono (mul_le_mul_of_nonneg_right h hp.le)
  have hm' : ((roundHalfEven (x * 10 ^ d) : ℤ) : α) ≤ ((roundHalfEven (y * 10 ^ d) : ℤ) : α) := by
    exact_mod_cast hm
  gcongr

theorem roundHalfEven_eq_of_lt_half {α : Type} [LinearOrderedField α] [FloorRing α]
    {x : α} {n : ℤ} (h1 : (n : α) ≤ x) (h2 : x < (n : α) + 1 / 2) :
    roundHalfEven x = n := by
  have hf : ⌊x⌋ = n := Int.floor_eq_iff.mpr ⟨h1, by linarith⟩
  have hc1 : Int.fract x < 1 / 2 := by
    simp only [Int.fract, hf]
    linarith
  unfold roundHalfEven
  rw [if_pos hc1, hf]

theorem roundHalfEven_eq_of_half_lt {α : Type} [LinearOrderedField α] [FloorRing α]
    {x : α} {n : ℤ} (h1 : (n : α) + 1 / 2 < x) (h2 : x < (n : α) + 1) :
    roundHalfEven x = n + 1 := by
  have hf : ⌊x⌋ = n := Int.floor_eq_iff.mpr ⟨by linarith, h2⟩
  have hc1 : ¬ Int.fract x < 1 / 2 := by
    simp only [Int.fract, hf]
    linarith
  have hc2 : 1 / 2 < Int.fract x := by
    simp only [Int.fract, hf]
    linarith
  unfold roundHalfEven
  rw [if_neg hc1, if_pos hc2, hf]

theorem pyRound_eq_of_lt_half {α : Type} [LinearOrderedField α] [FloorRing α]
    {x : α} {d : ℕ} {n : ℤ} (h1 : (n : α) ≤ x * 10 ^ d) (h2 : x * 10 ^ d < (n : α) + 1 / 2) :
    pyRound x d = (n : α) / 10 ^ d := by
  unfold pyRound
  rw [roundHalfEven_eq_of_lt_half h1 h2]

theorem pyRound_eq_of_half_lt {α : Type} [LinearOrderedField α] [FloorRing α]
    {x : α} {d : ℕ} {n : ℤ} (h1 : (n : α) + 1 / 2 < x * 10 ^ d) (h2 : x * 10 ^ d < (n : α) + 1) :
    pyRound x d = ((n : α) + 1) / 10 ^ d := by
  unfold pyRound
  rw [roundHalfEven_eq_of_half_lt h1 h2]
  push_cast
  ring

/-! ## Helper lemmas about dict lookups and the cost tables -/

theorem dict_get_map_self {α : Type} (l : List ℤ) (f : ℤ → α) {k : ℤ} (hk : k ∈ l) :
    dict_get (l.map (fun d => (d, f d))) k = some (f k) := by
  induction l with
  | nil => cases hk
  | cons d tl ih =>
    by_cases hdk : d = k
    · subst hdk
      simp [dict_get]
    · have hne : (d == k) = false := by simp [hdk]
      have hmem : k ∈ tl := by
        rcases List.mem_cons.mp hk with h | h
        · exact absurd h.symm hdk
        · exact h
      unfold dict_get at ih ⊢
      rw [List.map_cons, List.find?_cons]
      simp only [hne]
      exact ih hmem

theorem mem_dbs {k : ℤ} : k ∈ dbs ↔ 40 ≤ k ∧ k ≤ 79 := by
  unfold dbs
  rw [List.mem_map]
  constructor
  · rintro ⟨n, hn, rfl⟩
    have := List.mem_range'_1.mp hn
    omega
  · rintro ⟨h1, h2⟩
    exact ⟨k.toNat, List.mem_range'_1.mpr (by omega), by omega⟩

theorem mapM_lookup_eq_some {α : Type} [LinearOrderedField α] (table : List (ℤ × α))
    (ns : List (ℤ × α)) (h : ∀ p ∈ ns, (dict_get table p.1).isSome = true) :
    ns.mapM (fun p => (dict_get table p.1).map (fun c => c * p.2)) =
      some (ns.map (fun p => (dict_get table p.1).getD 0 * p.2)) := by
  induction ns with
  | nil => rfl
  | cons p tl ih =>
    obtain ⟨c, hc⟩ := Option.isSome_iff_exists.mp (h p (by simp))
    rw [List.mapM_cons, hc, ih (fun q hq => h q (by simp [hq]))]
    simp only [Option.map_some', Option.bind_eq_bind, Option.some_bind, List.map_cons, hc,
      Option.getD_some]
    rfl

theorem mapM_lookup_eq_none {α : Type} [LinearOrderedField α] (table : List (ℤ × α))
    {db : ℤ} {len : α} (ns : List (ℤ × α)) (hmem : (db, len) ∈ ns)
    (hnone : dict_get table db = none) :
    ns.mapM (fun p => (dict_get table p.1).map (fun c => c * p.2)) = none := by
  induction ns with
  | nil => cases hmem
  | cons p tl ih =>
    rw [List.mapM_cons]
    rcases List.mem_cons.mp hmem with h | h
    · subst h
      simp [hnone]
    · cases hfp : (dict_get table p.1).map (fun c => c * p.2) <;>
        simp only [hfp, Option.bind_eq_bind, Option.none_bind, Option.some_bind, ih h]

theorem get_noise_cost_coeff_error_msg {α : Type} [LinearOrderedField α] [FloorRing α]
    {noises : Option (List (ℤ × α))} {t : List (ℤ × α)} {e : String}
    (h : get_noise_cost_coeff noises t = .error e) : e = "KeyError" := by
  unfold get_noise_cost_coeff at h
  split at h
  · exact Except.noConfusion h
  · exact Except.noConfusion h
  · split at h
    · injection h with h
      exact h.symm
    · dsimp only at h
      split_ifs at h

/-! ## Unfolding equations for the edge cost -/

theorem edge_cost_some_eq {α : Type} [LinearOrderedField α] [FloorRing α]
    (s : α) (t : List (ℤ × α)) (ns : List (ℤ × α)) (len : α) (bt : Option α) :
    get_noise_adjusted_edge_cost s t (some ns) len bt =
      if |len - sum_values ns| > 1 / 2 then .error integrity_error_msg
      else
        match get_noise_cost_coeff (some ns) t with
        | .error e => .error e
        | .ok c => .ok (pyRound (py_base_cost bt len + py_base_cost bt len * c * s) 2) := rfl

theorem edge_cost_none_eq {α : Type} [LinearOrderedField α] [FloorRing α]
    (s : α) (t : List (ℤ × α)) (len : α) (bt : Option α) :
    get_noise_adjusted_edge_cost s t none len bt =
      .ok (pyRound (py_base_cost bt len + py_base_cost bt len * 100 * s) 2) := rfl

/-- C4: with a `None` exposure map the cost is `round(base + base*100*s, 2)`,
where `base` is a non-zero `bike_time_cost` override and otherwise `length`
(a zero or absent override falls back to `length`); in particular
`edgeCost(0.1, table, None, 100)` is `1100.0`. -/
theorem edge_cost_no_data_penalty :
    (∀ (s len : ℚ) (table : List (ℤ × ℚ)),
        get_noise_adjusted_edge_cost s table none len none =
          .ok (pyRound (len + len * 100 * s) 2)) ∧
    (∀ (s len : ℚ) (table : List (ℤ × ℚ)),
        get_noise_adjusted_edge_cost s table none len (some 0) =
          .ok (pyRound (len + len * 100 * s) 2)) ∧
    (∀ (s len b : ℚ) (table : List (ℤ × ℚ)), b ≠ 0 →
        get_noise_adjusted_edge_cost s table none len (some b) =
          .ok (pyRound (b + b * 100 * s) 2)) ∧
    get_noise_adjusted_edge_cost (1/10 : ℚ) [] none 100 none = .ok 1100 := by
  refine ⟨?_, ?_, ?_, ?_⟩
  · intro s len table
    rw [edge_cost_none_eq]
    rfl
  · intro s len table
    rw [edge_cost_none_eq]
    simp [py_base_cost]
  · intro s len b table hb
    rw [edge_cost_none_eq]
    simp [py_base_cost, hb]
  · rw [edge_cost_none_eq]
    have hb : py_base_cost (none : Option ℚ) 100 = 100 := rfl
    rw [hb]
    have h1 : (100 : ℚ) + 100 * 100 * (1/10) = 1100 := by norm_num
    rw [h1]
    have h2 : pyRound (1100 : ℚ) 2 = ((110000 : ℤ) : ℚ) / 10 ^ 2 :=
      pyRound_eq_of_lt_half (by norm_num) (by norm_num)
    rw [h2]
    norm_num

/-- C4 witness: the non-zero bike-time-cost override case at concrete inputs. -/
theorem edge_cost_no_data_penalty_witness :
    (5 : ℚ) ≠ 0 ∧
      get_noise_adjusted_edge_cost (1 : ℚ) [] none 10 (some 5) =
        .ok (pyRound (5 + 5 * 100 * 1) 2) :=
  ⟨by decide, edge_cost_no_data_penalty.2.2.1 1 10 5 [] (by decide)⟩

/-- C1 (amended): `edgeCost` raises the integrity-violation error iff the
exposure map is non-null and `|length − sum(map.values())| > 0.5` — the
emptiness of the map is not tested, so an empty map raises whenever
`|length| > 0.5`; it raises for `noises = {50: 10.0}`, `length = 20.0`; it
never raises when the map is null; and an empty map that passes validation
(`|length| ≤ 0.5`) yields the base cost with a zero noise coefficient. -/
theorem edge_cost_integrity_error_iff :
    (∀ (s len : ℚ) (table : List (ℤ × ℚ)) (noises : Option (List (ℤ × ℚ))) (bt : Option ℚ),
        get_noise_adjusted_edge_cost s table noises len bt = .error integrity_error_msg ↔
          ∃ ns, noises = some ns ∧ |len - sum_values ns| > 1 / 2) ∧
    get_noise_adjusted_edge_cost (1 : ℚ) [] (some [(50, 10)]) 20 none =
      .error integrity_error_msg ∧
    (∀ (s len : ℚ) (table : List (ℤ × ℚ)) (bt : Option ℚ),
        get_noise_adjusted_edge_cost s table none len bt ≠ .error integrity_error_msg) ∧
    (∀ (s len : ℚ) (table : List (ℤ × ℚ)) (bt : Option ℚ), |len| ≤ 1 / 2 →
        get_noise_adjusted_edge_cost s table (some []) len bt =
          .ok (pyRound (py_base_cost bt len + py_base_cost bt len * 0 * s) 2)) := by
  have hiff : ∀ (s len : ℚ) (table : List (ℤ × ℚ)) (noises : Option (List (ℤ × ℚ)))
      (bt : Option ℚ),
      get_noise_adjusted_edge_cost s table noises len bt = .error integrity_error_msg ↔
        ∃ ns, noises = some ns ∧ |len - sum_values ns| > 1 / 2 := by
    intro s len table noises bt
    rcases noises with _ | ns
    · rw [edge_cost_none_eq]
      constructor
      · intro h
        exact Except.noConfusion h
      · rintro ⟨ns, hns, _⟩
        exact Option.noConfusion hns
    · rw [edge_cost_some_eq]
      by_cases hv : |len - sum_values ns| > 1 / 2
      · rw [if_pos hv]
        exact ⟨fun _ => ⟨ns, rfl, hv⟩, fun _ => rfl⟩
      · rw [if_neg hv]
        constructor
        · intro h
          exfalso
          rcases hc : get_noise_cost_coeff (some ns) table with e | c
          · rw [hc] at h
            injection h with h
            have he := get_noise_cost_coeff_error_msg hc
            subst he
            exact absurd h (by decide)
          · rw [hc] at h
            exact Except.noConfusion h
        · rintro ⟨ns', hns', hgt⟩
          injection hns' with hns'
          subst hns'
          exact absurd hgt hv
  refine ⟨hiff, ?_, ?_, ?_⟩
  · rw [edge_cost_some_eq, if_pos ?_]
    have : sum_values [((50 : ℤ), (10 : ℚ))] = 10 := by
      simp [sum_values]
    rw [this]
    norm_num
  · intro s len table bt h
    rcases (hiff s len table none bt).mp h with ⟨ns, hns, _⟩
    exact Option.noConfusion hns
  · intro s len table bt hlen
    rw [edge_cost_some_eq]
    have hv : ¬ |len - sum_values ([] : List (ℤ × ℚ))| > 1 / 2 := by
      simp only [sum_values, List.map_nil, List.sum_nil, sub_zero]
      exact not_lt.mpr hlen
    rw [if_neg hv]
    rfl

/-- C1 witness: an empty non-null map with `|length| ≤ 0.5` passes validation
and yields the base cost. -/
theorem edge_cost_integrity_error_iff_witness :
    |(0 : ℚ)| ≤ 1 / 2 ∧
      get_noise_adjusted_edge_cost (1 : ℚ) [] (some []) 0 none =
        .ok (pyRound (py_base_cost none 0 + py_base_cost none 0 * 0 * 1) 2) :=
  ⟨abs_zero.le.trans one_half_pos.le,
    edge_cost_integrity_error_iff.2.2.2 1 0 [] none (abs_zero.le.trans one_half_pos.le)⟩

/-- C1 counterexample: the claim as stated is false — an *empty* (non-null)
exposure map with `length = 20` does raise the integrity-violation error,
while the claim requires a non-empty map for the error to fire. -/
theorem edge_cost_integrity_error_counterexample :
    get_noise_adjusted_edge_cost (1 : ℚ) [] (some []) 20 none =
      .error integrity_error_msg := by
  rw [edge_cost_some_eq, if_pos ?_]
  simp only [sum_values, List.map_nil, List.sum_nil, sub_zero]
  norm_num

theorem coeff_cons_eq {α : Type} [LinearOrderedField α] [FloorRing α]
    (p : ℤ × α) (tl : List (ℤ × α)) (t : List (ℤ × α)) :
    get_noise_cost_coeff (some (p :: tl)) t =
      match (p :: tl).mapM (fun q => (dict_get t q.1).map (fun c => c * q.2)) with
      | none => .error "KeyError"
      | some costs =>
        if sum_values (p :: tl) ≠ 0 then .ok (pyRound (costs.sum / sum_values (p :: tl)) 3)
        else .ok 0 := rfl

theorem index_cons_eq {α : Type} [LinearOrderedField α] [FloorRing α]
    (p : ℤ × α) (tl : List (ℤ × α)) (t : List (ℤ × α)) :
    get_noise_exposure_index (some (p :: tl)) t =
      match (p :: tl).mapM (fun q => (dict_get t q.1).map (fun c => c * q.2)) with
      | none => .error "KeyError"
      | some costs => .ok (pyRound costs.sum 2) := rfl

theorem total_db_length_eq {α : Type} [LinearOrderedField α] [FloorRing α]
    (ns : List (ℤ × α)) :
    (if ns.isEmpty then 0 else get_total_noises_len ns) = get_total_noises_len ns := by
  by_cases h : ns.isEmpty
  · simp [h, get_total_noises_len]
  · simp [h]

theorem add_db_40_some_eq {α : Type} [LinearOrderedField α] [FloorRing α]
    (ns : List (ℤ × α)) (len : α) :
    add_db_40_exp_to_noises (some ns) len =
      if len = 0 then some ns
      else if (ns.map Prod.fst).contains 40 then some ns
      else
        if pyRound (len - (if ns.isEmpty then 0 else get_total_noises_len ns)) 2 ≠ 0
        then some ((40, pyRound (len - (if ns.isEmpty then 0 else get_total_noises_len ns)) 2) :: ns)
        else some ns := rfl

/-- C8 (amended): `gapFill` returns the map unchanged when the map is null,
the length is 0, or a key-40 entry is present; otherwise, with
`remainder = round(length − round(sum(map.values()), 3), 2)` — the sum is
first rounded to 3 decimals, unlike the claim's plain sum — the map is
unchanged if the remainder is 0 and otherwise the remainder is inserted
under key 40, ordered first; `gapFill({50: 8.0}, 10.0) = {40: 2.0, 50: 8.0}`. -/
theorem gap_fill_spec :
    (∀ len : ℚ, add_db_40_exp_to_noises none len = none) ∧
    (∀ ns : List (ℤ × ℚ), add_db_40_exp_to_noises (some ns) 0 = some ns) ∧
    (∀ (ns : List (ℤ × ℚ)) (len : ℚ), 40 ∈ ns.map Prod.fst →
        add_db_40_exp_to_noises (some ns) len = some ns) ∧
    (∀ (ns : List (ℤ × ℚ)) (len : ℚ), len ≠ 0 → 40 ∉ ns.map Prod.fst →
        add_db_40_exp_to_noises (some ns) len =
          if pyRound (len - get_total_noises_len ns) 2 ≠ 0
          then some ((40, pyRound (len - get_total_noises_len ns) 2) :: ns)
          else some ns) ∧
    add_db_40_exp_to_noises (some [(50, 8)]) (10 : ℚ) = some [(40, 2), (50, 8)] := by
  refine ⟨fun len => rfl, fun ns => by simp [add_db_40_exp_to_noises], ?_, ?_, ?_⟩
  · intro ns len h
    by_cases hlen : len = 0
    · subst hlen
      simp [add_db_40_exp_to_noises]
    · have hc : (ns.map Prod.fst).contains 40 = true := by simpa using h
      rw [add_db_40_some_eq, if_neg hlen, if_pos hc]
  · intro ns len hlen h40
    have hc : ¬ ((ns.map Prod.fst).contains 40 = true) := by simpa using h40
    rw [add_db_40_some_eq, if_neg hlen, if_neg hc, total_db_length_eq]
  · have hlen : ¬ ((10 : ℚ) = 0) := by norm_num
    have hc : ¬ (([((50 : ℤ), (8 : ℚ))].map Prod.fst).contains 40 = true) := by decide
    rw [add_db_40_some_eq, if_neg hlen, if_neg hc, total_db_length_eq]
    have htot : get_total_noises_len [((50 : ℤ), (8 : ℚ))] = 8 := by
      have hs : sum_values [((50 : ℤ), (8 : ℚ))] = 8 := by simp [sum_values]
      have h8 : pyRound (8 : ℚ) 3 = ((8000 : ℤ) : ℚ) / 10 ^ 3 :=
        pyRound_eq_of_lt_half (by norm_num) (by norm_num)
      rw [get_total_noises_len, if_neg (by decide), hs, h8]
      norm_num
    rw [htot]
    have hr : pyRound ((10 : ℚ) - 8) 2 = ((200 : ℤ) : ℚ) / 10 ^ 2 :=
      pyRound_eq_of_lt_half (by norm_num) (by norm_num)
    have hr2 : pyRound ((10 : ℚ) - 8) 2 = 2 := by
      rw [hr]; norm_num
    rw [if_pos (by rw [hr2]; norm_num), hr2]

/-- C8 witness: the gap-fill branch at `{50: 8.0}` with length 10. -/
theorem gap_fill_spec_witness :
    (10 : ℚ) ≠ 0 ∧ (40 : ℤ) ∉ [((50 : ℤ), (8 : ℚ))].map Prod.fst ∧
      add_db_40_exp_to_noises (some [((50 : ℤ), (8 : ℚ))]) (10 : ℚ) =
        if pyRound ((10 : ℚ) - get_total_noises_len [((50 : ℤ), (8 : ℚ))]) 2 ≠ 0
        then some ((40, pyRound ((10 : ℚ) - get_total_noises_len [((50 : ℤ), (8 : ℚ))]) 2) ::
          [((50 : ℤ), (8 : ℚ))])
        else some [((50 : ℤ), (8 : ℚ))] :=
  ⟨by decide, by decide, gap_fill_spec.2.2.2.1 [((50 : ℤ), (8 : ℚ))] 10 (by decide) (by decide)⟩

/-- C8 counterexample: the claim computes the remainder as
`round(length − sum(map.values()), 2)`, but the code rounds the sum to 3
decimals first.  At `noises = {50: 0.0052}`, `length = 1.0101` the code
inserts `{40: 1.01}` while the claim's remainder is `1.0`. -/
theorem gap_fill_counterexample :
    add_db_40_exp_to_noises (some [((50 : ℤ), (13/2500 : ℚ))]) (10101/10000 : ℚ) =
      some [(40, 101/100), (50, 13/2500)] ∧
    pyRound ((10101/10000 : ℚ) - 13/2500) 2 = 1 ∧
    (101/100 : ℚ) ≠ 1 := by
  refine ⟨?_, ?_, by norm_num⟩
  · have hlen : ¬ ((10101/10000 : ℚ) = 0) := by norm_num
    have hc : ¬ (([((50 : ℤ), (13/2500 : ℚ))].map Prod.fst).contains 40 = true) := by decide
    rw [add_db_40_some_eq, if_neg hlen, if_neg hc, total_db_length_eq]
    have htot : get_total_noises_len [((50 : ℤ), (13/2500 : ℚ))] = 1/200 := by
      have hs : sum_values [((50 : ℤ), (13/2500 : ℚ))] = 13/2500 := by simp [sum_values]
      have h5 : pyRound (13/2500 : ℚ) 3 = ((5 : ℤ) : ℚ) / 10 ^ 3 :=
        pyRound_eq_of_lt_half (by norm_num) (by norm_num)
      rw [get_total_noises_len, if_neg (by decide), hs, h5]
      norm_num
    rw [htot]
    have hr : pyRound ((10101/10000 : ℚ) - 1/200) 2 = (((100 : ℤ) : ℚ) + 1) / 10 ^ 2 :=
      pyRound_eq_of_half_lt (by norm_num) (by norm_num)
    have hr2 : pyRound ((10101/10000 : ℚ) - 1/200) 2 = 101/100 := by
      rw [hr]; norm_num
    rw [if_pos (by rw [hr2]; norm_num), hr2]
  · have h : pyRound ((10101/10000 : ℚ) - 13/2500) 2 = ((100 : ℤ) : ℚ) / 10 ^ 2 :=
      pyRound_eq_of_lt_half (by norm_num) (by norm_num)
    rw [h]; norm_num

/-- C7: `buildCostTable` fails for any version other than 2 and 3, and
`costCoefficient`, `noiseExposureIndex` and `edgeCost` fail with a hard error
whenever a non-empty exposure map holds a dB key absent from the cost table. -/
theorem invalid_version_and_missing_key_fail :
    (∀ v : ℤ, v ≠ 2 → v ≠ 3 →
        get_db_costs v = .error "Argument version must be either 2 or 3") ∧
    (∀ (ns table : List (ℤ × ℚ)) (db : ℤ) (len : ℚ), ns ≠ [] → (db, len) ∈ ns →
        dict_get table db = none →
        (get_noise_cost_coeff (some ns) table).isOk = false) ∧
    (∀ (ns table : List (ℤ × ℚ)) (db : ℤ) (len : ℚ), ns ≠ [] → (db, len) ∈ ns →
        dict_get table db = none →
        (get_noise_exposure_index (some ns) table).isOk = false) ∧
    (∀ (s : ℚ) (ns table : List (ℤ × ℚ)) (db : ℤ) (len length : ℚ) (bt : Option ℚ),
        ns ≠ [] → (db, len) ∈ ns → dict_get table db = none →
        (get_noise_adjusted_edge_cost s table (some ns) length bt).isOk = false) := by
  have hcoeff : ∀ (ns table : List (ℤ × ℚ)) (db : ℤ) (len : ℚ), ns ≠ [] → (db, len) ∈ ns →
      dict_get table db = none →
      get_noise_cost_coeff (some ns) table = .error "KeyError" := by
    intro ns table db len hne hmem hnone
    rcases ns with _ | ⟨p, tl⟩
    · exact absurd rfl hne
    · rw [coeff_cons_eq, mapM_lookup_eq_none table (p :: tl) hmem hnone]
  refine ⟨?_, ?_, ?_, ?_⟩
  · intro v h2 h3
    unfold get_db_costs
    rw [if_neg h2, if_neg h3]
  · intro ns table db len hne hmem hnone
    rw [hcoeff ns table db len hne hmem hnone]
    rfl
  · intro ns table db len hne hmem hnone
    rcases ns with _ | ⟨p, tl⟩
    · exact absurd rfl hne
    · rw [index_cons_eq, mapM_lookup_eq_none table (p :: tl) hmem hnone]
      rfl
  · intro s ns table db len length bt hne hmem hnone
    rw [edge_cost_some_eq]
    split_ifs with hv
    · rfl
    · rw [hcoeff ns table db len hne hmem hnone]
      rfl

/-- C7 witness: version 5 is rejected, and a map `{100: 1.0}` with an empty
cost table makes all three functions fail. -/
theorem invalid_version_and_missing_key_fail_witness :
    ((5 : ℤ) ≠ 2 ∧ (5 : ℤ) ≠ 3 ∧
      get_db_costs 5 = .error "Argument version must be either 2 or 3") ∧
    ([((100 : ℤ), (1 : ℚ))] ≠ [] ∧ ((100 : ℤ), (1 : ℚ)) ∈ [((100 : ℤ), (1 : ℚ))] ∧
      dict_get ([] : List (ℤ × ℚ)) 100 = none ∧
      (get_noise_cost_coeff (some [((100 : ℤ), (1 : ℚ))]) ([] : List (ℤ × ℚ))).isOk = false ∧
      (get_noise_exposure_index (some [((100 : ℤ), (1 : ℚ))]) ([] : List (ℤ × ℚ))).isOk = false ∧
      (get_noise_adjusted_edge_cost (1 : ℚ) [] (some [((100 : ℤ), (1 : ℚ))]) 0 none).isOk
        = false) :=
  ⟨⟨by decide, by decide,
      invalid_version_and_missing_key_fail.1 5 (by decide) (by decide)⟩,
    ⟨by decide, by decide, by decide,
      invalid_version_and_missing_key_fail.2.1 [((100 : ℤ), (1 : ℚ))] [] 100 1 (by decide)
        (by decide) (by decide),
      invalid_version_and_missing_key_fail.2.2.1 [((100 : ℤ), (1 : ℚ))] [] 100 1 (by decide)
        (by decide) (by decide),
      invalid_version_and_missing_key_fail.2.2.2 1 [((100 : ℤ), (1 : ℚ))] [] 100 1 0 none
        (by decide) (by decide) (by decide)⟩⟩

theorem coeff_of_mapM_some {α : Type} [LinearOrderedField α] [FloorRing α]
    (ns t : List (ℤ × α)) (costs : List α) (hns : ns ≠ [])
    (hm : ns.mapM (fun q => (dict_get t q.1).map (fun c => c * q.2)) = some costs) :
    get_noise_cost_coeff (some ns) t =
      if sum_values ns ≠ 0 then .ok (pyRound (costs.sum / sum_values ns) 3)
      else .ok 0 := by
  rcases ns with _ | ⟨p, tl⟩
  · exact absurd rfl hns
  · rw [coeff_cons_eq, hm]

theorem v2_table_eq : v2_table = dbs.map (fun db => (db, calc_db_cost_v2 db)) := by
  unfold v2_table get_db_costs
  rw [if_pos rfl]
  rfl

theorem v3_table_eq : v3_table = dbs.map (fun db => (db, calc_db_cost_v3 db)) := by
  unfold v3_table get_db_costs
  rw [if_neg (by decide), if_pos rfl]
  rfl

theorem calc_db_cost_v2_mono {a b : ℤ} (ha : 45 ≤ a) (hab : a ≤ b) :
    calc_db_cost_v2 a ≤ calc_db_cost_v2 b := by
  unfold calc_db_cost_v2
  rw [if_neg (by omega), if_neg (by omega)]
  apply pyRound_mono
  have hab' : (a : ℝ) ≤ (b : ℝ) := by exact_mod_cast hab
  linarith

theorem calc_db_cost_v3_mono {a b : ℤ} (ha : 45 ≤ a) (hab : a ≤ b) :
    calc_db_cost_v3 a ≤ calc_db_cost_v3 b := by
  unfold calc_db_cost_v3
  rw [if_neg (by omega), if_neg (by omega)]
  apply pyRound_mono
  have hab' : (a : ℝ) ≤ (b : ℝ) := by exact_mod_cast hab
  have hexp : (0.3 * (a : ℝ)) / 10 ≤ (0.3 * (b : ℝ)) / 10 := by
    norm_num
    linarith
  have hpow : (10 : ℝ) ^ ((0.3 * (a : ℝ)) / 10) ≤ (10 : ℝ) ^ ((0.3 * (b : ℝ)) / 10) :=
    Real.rpow_le_rpow_of_exponent_le (by norm_num) hexp
  linarith

/-- C6: for versions 2 and 3 the cost table has keys exactly 40..79, value 0
for every dB ≤ 44 (in particular at 44), the documented formula for dB ≥ 45,
and is non-decreasing in dB over [45, 79]. -/
theorem db_cost_table_spec :
    (∀ t : List (ℤ × ℝ), get_db_costs 2 = .ok t →
      (∀ k : ℤ, k ∈ t.map Prod.fst ↔ 40 ≤ k ∧ k ≤ 79) ∧
      (∀ db : ℤ, 40 ≤ db → db ≤ 44 → dict_get t db = some 0) ∧
      (∀ db : ℤ, 45 ≤ db → db ≤ 79 →
          dict_get t db = some (pyRound (((db : ℝ) - 40) / (75 - 40)) 3)) ∧
      dict_get t 44 = some 0 ∧
      (∀ a b : ℤ, 45 ≤ a → a ≤ b → b ≤ 79 → ∀ x y : ℝ,
          dict_get t a = some x → dict_get t b = some y → x ≤ y)) ∧
    (∀ t : List (ℤ × ℝ), get_db_costs 3 = .ok t →
      (∀ k : ℤ, k ∈ t.map Prod.fst ↔ 40 ≤ k ∧ k ≤ 79) ∧
      (∀ db : ℤ, 40 ≤ db → db ≤ 44 → dict_get t db = some 0) ∧
      (∀ db : ℤ, 45 ≤ db → db ≤ 79 →
          dict_get t db = some (pyRound ((10 : ℝ) ^ ((0.3 * (db : ℝ)) / 10) / 100) 3)) ∧
      dict_get t 44 = some 0 ∧
      (∀ a b : ℤ, 45 ≤ a → a ≤ b → b ≤ 79 → ∀ x y : ℝ,
          dict_get t a = some x → dict_get t b = some y → x ≤ y)) := by
  constructor
  · intro t ht
    have ht2 : get_db_costs 2 = .ok (dbs.map (fun db => (db, calc_db_cost_v2 db))) := by
      unfold get_db_costs
      rw [if_pos rfl]
    rw [ht2] at ht
    injection ht with ht
    subst ht
    refine ⟨?_, ?_, ?_, ?_, ?_⟩
    · intro k
      have hkeys : (dbs.map (fun db => (db, calc_db_cost_v2 db))).map Prod.fst = dbs := by
        rw [List.map_map]
        exact List.map_id dbs
      rw [hkeys]
      exact mem_dbs
    · intro db h1 h2
      rw [dict_get_map_self dbs _ (mem_dbs.mpr ⟨h1, by omega⟩)]
      unfold calc_db_cost_v2
      rw [if_pos h2]
    · intro db h1 h2
      rw [dict_get_map_self dbs _ (mem_dbs.mpr ⟨by omega, h2⟩)]
      unfold calc_db_cost_v2
      rw [if_neg (by omega)]
    · rw [dict_get_map_self dbs _ (mem_dbs.mpr (by omega))]
      unfold calc_db_cost_v2
      rw [if_pos (by omega)]
    · intro a b ha hab hb x y hx hy
      rw [dict_get_map_self dbs _ (mem_dbs.mpr ⟨by omega, by omega⟩)] at hx
      rw [dict_get_map_self dbs _ (mem_dbs.mpr ⟨by omega, by omega⟩)] at hy
      have hx' := Option.some.inj hx
      have hy' := Option.some.inj hy
      subst hx'
      subst hy'
      exact calc_db_cost_v2_mono ha hab
  · intro t ht
    have ht3 : get_db_costs 3 = .ok (dbs.map (fun db => (db, calc_db_cost_v3 db))) := by
      unfold get_db_costs
      rw [if_neg (by decide), if_pos rfl]
    rw [ht3] at ht
    injection ht with ht
    subst ht
    refine ⟨?_, ?_, ?_, ?_, ?_⟩
    · intro k
      have hkeys : (dbs.map (fun db => (db, calc_db_cost_v3 db))).map Prod.fst = dbs := by
        rw [List.map_map]
        exact List.map_id dbs
      rw [hkeys]
      exact mem_dbs
    · intro db h1 h2
      rw [dict_get_map_self dbs _ (mem_dbs.mpr ⟨h1, by omega⟩)]
      unfold calc_db_cost_v3
      rw [if_pos h2]
    · intro db h1 h2
      rw [dict_get_map_self dbs _ (mem_dbs.mpr ⟨by omega, h2⟩)]
      unfold calc_db_cost_v3
      rw [if_neg (by omega)]
    · rw [dict_get_map_self dbs _ (mem_dbs.mpr (by omega))]
      unfold calc_db_cost_v3
      rw [if_pos (by omega)]
    · intro a b ha hab hb x y hx hy
      rw [dict_get_map_self dbs _ (mem_dbs.mpr ⟨by omega, by omega⟩)] at hx
      rw [dict_get_map_self dbs _ (mem_dbs.mpr ⟨by omega, by omega⟩)] at hy
      have hx' := Option.some.inj hx
      have hy' := Option.some.inj hy
      subst hx'
      subst hy'
      exact calc_db_cost_v3_mono ha hab

/-- C6 witness: both tables at concrete points — existence, value 0 at 44,
and monotonicity between 45 and 46. -/
theorem db_cost_table_spec_witness :
    get_db_costs 2 = .ok (dbs.map (fun db => (db, calc_db_cost_v2 db))) ∧
    get_db_costs 3 = .ok (dbs.map (fun db => (db, calc_db_cost_v3 db))) ∧
    dict_get (dbs.map (fun db => (db, calc_db_cost_v2 db))) 44 = some 0 ∧
    dict_get (dbs.map (fun db => (db, calc_db_cost_v3 db))) 44 = some 0 ∧
    ((44 : ℤ) ∈ (dbs.map (fun db => (db, calc_db_cost_v2 db))).map Prod.fst ↔
      40 ≤ (44 : ℤ) ∧ (44 : ℤ) ≤ 79) := by
  have h2 : get_db_costs 2 = .ok (dbs.map (fun db => (db, calc_db_cost_v2 db))) := by
    unfold get_db_costs
    rw [if_pos rfl]
  have h3 : get_db_costs 3 = .ok (dbs.map (fun db => (db, calc_db_cost_v3 db))) := by
    unfold get_db_costs
    rw [if_neg (by decide), if_pos rfl]
  exact ⟨h2, h3, (db_cost_table_spec.1 _ h2).2.2.2.1, (db_cost_table_spec.2 _ h3).2.2.2.1,
    (db_cost_table_spec.1 _ h2).1 44⟩

/-- C5: `costCoefficient` is 0 for a null or empty map, otherwise the
length-weighted mean of the table values rounded to 3 decimals (0 when the
total exposed length is 0); and the version-3 scenario
`edgeCost(0.5, v3Table, {40: 5.0, 60: 15.0}, 20.0)` equals
`round(20 + 20 * round((v3Table[40]*5 + v3Table[60]*15)/20, 3) * 0.5, 2)`. -/
theorem noise_cost_coeff_spec :
    (∀ table : List (ℤ × ℚ), get_noise_cost_coeff none table = .ok 0) ∧
    (∀ table : List (ℤ × ℚ), get_noise_cost_coeff (some []) table = .ok 0) ∧
    (∀ ns table : List (ℤ × ℚ), ns ≠ [] →
        (∀ p ∈ ns, (dict_get table p.1).isSome = true) →
        get_noise_cost_coeff (some ns) table =
          if sum_values ns ≠ 0
          then .ok (pyRound
            ((ns.map (fun p => (dict_get table p.1).getD 0 * p.2)).sum / sum_values ns) 3)
          else .ok 0) ∧
    get_noise_adjusted_edge_cost (1/2 : ℝ) v3_table (some [(40, 5), (60, 15)]) 20 none =
      .ok (pyRound (20 + 20 *
        pyRound (((dict_get v3_table 40).getD 0 * 5 + (dict_get v3_table 60).getD 0 * 15) / 20) 3
          * (1/2)) 2) := by
  refine ⟨fun table => rfl, fun table => rfl, ?_, ?_⟩
  · intro ns table hne hsome
    exact coeff_of_mapM_some ns table _ hne (mapM_lookup_eq_some table ns hsome)
  · have h40 : dict_get v3_table 40 = some (calc_db_cost_v3 40) := by
      rw [v3_table_eq]
      exact dict_get_map_self dbs _ (mem_dbs.mpr (by omega))
    have h60 : dict_get v3_table 60 = some (calc_db_cost_v3 60) := by
      rw [v3_table_eq]
      exact dict_get_map_self dbs _ (mem_dbs.mpr (by omega))
    have hsum : sum_values [((40 : ℤ), (5 : ℝ)), (60, 15)] = 20 := by
      simp [sum_values]
      norm_num
    have hm := mapM_lookup_eq_some v3_table [((40 : ℤ), (5 : ℝ)), (60, 15)]
      (by
        intro p hp
        fin_cases hp <;> simp [h40, h60])
    have hco := coeff_of_mapM_some [((40 : ℤ), (5 : ℝ)), (60, 15)] v3_table _
      (by simp) hm
    rw [hsum] at hco
    rw [if_pos (by norm_num)] at hco
    rw [edge_cost_some_eq, hsum, if_neg (by norm_num), hco]
    simp only [List.map_cons, List.map_nil, List.sum_cons, List.sum_nil, h40, h60,
      Option.getD_some]
    have harith : calc_db_cost_v3 40 * 5 + (calc_db_cost_v3 60 * 15 + 0) =
        calc_db_cost_v3 40 * 5 + calc_db_cost_v3 60 * 15 := by ring
    rw [harith]
    rfl

/-- C5 witness: the weighted-mean branch at `{40: 5.0}` with table `{40: 2.0}`,
and the degenerate cases. -/
theorem noise_cost_coeff_spec_witness :
    ([((40 : ℤ), (5 : ℚ))] ≠ []) ∧
    (∀ p ∈ [((40 : ℤ), (5 : ℚ))], (dict_get [((40 : ℤ), (2 : ℚ))] p.1).isSome = true) ∧
    get_noise_cost_coeff (some [((40 : ℤ), (5 : ℚ))]) [((40 : ℤ), (2 : ℚ))] =
      (if sum_values [((40 : ℤ), (5 : ℚ))] ≠ 0
       then .ok (pyRound
         (([((40 : ℤ), (5 : ℚ))].map
           (fun p => (dict_get [((40 : ℤ), (2 : ℚ))] p.1).getD 0 * p.2)).sum /
             sum_values [((40 : ℤ), (5 : ℚ))]) 3)
       else .ok 0) ∧
    get_noise_cost_coeff none [((40 : ℤ), (2 : ℚ))] = .ok 0 :=
  ⟨by decide, by decide,
    noise_cost_coeff_spec.2.2.1 [((40 : ℤ), (5 : ℚ))] [((40 : ℤ), (2 : ℚ))]
      (by decide) (by decide),
    noise_cost_coeff_spec.1 [((40 : ℤ), (2 : ℚ))]⟩

/-! ## Round-trip properties of the codec: digits and integers -/

theorem digitVal_digitChar : ∀ d < 10, digitVal (digitChar d) = d := by decide

theorem isDigitChar_digitChar : ∀ d < 10, isDigitChar (digitChar d) = true := by decide

theorem digitChar_ne : ∀ d < 10, digitChar d ≠ '-' ∧ digitChar d ≠ '.' ∧
    digitChar d ≠ quoteChar ∧ digitChar d ≠ lbraceChar ∧ digitChar d ≠ rbraceChar ∧
    digitChar d ≠ '(' ∧ digitChar d ≠ 'N' := by decide

theorem digitsLEAux_congr : ∀ (fuel1 : ℕ) (fuel2 n : ℕ), n ≤ fuel1 → n ≤ fuel2 →
    digitsLEAux fuel1 n = digitsLEAux fuel2 n := by
  intro fuel1
  induction fuel1 with
  | zero =>
    intro fuel2 n h1 _
    have : n = 0 := by omega
    subst this
    cases fuel2 with
    | zero => rfl
    | succ f => simp [digitsLEAux]
  | succ f1 ih =>
    intro fuel2 n h1 h2
    by_cases hn : n = 0
    · subst hn
      cases fuel2 with
      | zero => rfl
      | succ f => simp [digitsLEAux]
    · cases fuel2 with
      | zero => omega
      | succ f2 =>
        simp only [digitsLEAux, if_neg hn]
        have hlt : n / 10 < n := Nat.div_lt_self (Nat.pos_of_ne_zero hn) (by norm_num)
        rw [ih f2 (n / 10) (by omega) (by omega)]

theorem digitsLE_eq (n : ℕ) :
    digitsLE n = if n = 0 then [] else (n % 10) :: digitsLE (n / 10) := by
  by_cases hn : n = 0
  · subst hn
    rfl
  · rw [if_neg hn]
    unfold digitsLE
    rcases Nat.exists_eq_succ_of_ne_zero hn with ⟨m, rfl⟩
    simp only [digitsLEAux, if_neg hn]
    have hlt : (m + 1) / 10 < m + 1 := Nat.div_lt_self (Nat.pos_of_ne_zero hn) (by norm_num)
    rw [digitsLEAux_congr m ((m + 1) / 10) ((m + 1) / 10) (by omega) (le_refl _)]

theorem digitsLE_lt : ∀ n : ℕ, ∀ d ∈ digitsLE n, d < 10 := by
  intro n
  induction n using Nat.strong_induction_on with
  | _ n ih =>
    rw [digitsLE_eq]
    split
    · intro d hd
      cases hd
    · intro d hd
      rcases List.mem_cons.mp hd with h | h
      · subst h
        exact Nat.mod_lt _ (by norm_num)
      · have hn : n ≠ 0 := by assumption
        exact ih (n / 10) (Nat.div_lt_self (Nat.pos_of_ne_zero hn) (by norm_num)) d h

theorem natDigitsBE_lt (n : ℕ) : ∀ d ∈ natDigitsBE n, d < 10 := by
  unfold natDigitsBE
  split
  · intro d hd
    rcases List.mem_cons.mp hd with h | h
    · subst h
      norm_num
    · cases h
  · intro d hd
    exact digitsLE_lt n d (List.mem_reverse.mp hd)

theorem natDigitsBE_ne_nil (n : ℕ) : natDigitsBE n ≠ [] := by
  unfold natDigitsBE
  split
  · exact List.cons_ne_nil _ _
  · intro h
    rw [List.reverse_eq_nil_iff] at h
    rw [digitsLE_eq] at h
    split at h
    · exact absurd ‹n = 0› (by assumption)
    · exact List.noConfusion h

theorem foldr_digitsLE : ∀ n : ℕ, ∀ acc : ℕ,
    (digitsLE n).foldr (fun d a => 10 * a + d) acc = acc * 10 ^ (digitsLE n).length + n := by
  intro n
  induction n using Nat.strong_induction_on with
  | _ n ih =>
    intro acc
    rw [digitsLE_eq]
    by_cases hn : n = 0
    · subst hn
      simp
    · rw [if_neg hn]
      have hlt : n / 10 < n := Nat.div_lt_self (Nat.pos_of_ne_zero hn) (by norm_num)
      simp only [List.foldr_cons, List.length_cons, ih (n / 10) hlt acc]
      have hdm : 10 * (n / 10) + n % 10 = n := by omega
      rw [pow_succ]
      have h2 : 10 * (acc * 10 ^ (digitsLE (n / 10)).length + n / 10) + n % 10 =
          acc * (10 ^ (digitsLE (n / 10)).length * 10) + (10 * (n / 10) + n % 10) := by ring
      rw [h2, hdm]

theorem foldl_shift (bs : List ℕ) : ∀ acc : ℕ,
    bs.foldl (fun a d => 10 * a + d) acc =
      acc * 10 ^ bs.length + bs.foldl (fun a d => 10 * a + d) 0 := by
  induction bs with
  | nil => simp
  | cons b bs ih =>
    intro acc
    simp only [List.foldl_cons, List.length_cons]
    rw [ih (10 * acc + b), ih (10 * 0 + b), pow_succ]
    ring

theorem foldl_natDigitsBE (n : ℕ) (acc : ℕ) :
    (natDigitsBE n).foldl (fun a d => 10 * a + d) acc =
      acc * 10 ^ (natDigitsBE n).length + n := by
  unfold natDigitsBE
  split
  · subst ‹n = 0›
    simp only [List.foldl_cons, List.foldl_nil, List.length_cons, List.length_nil, pow_one,
      pow_zero]
    omega
  · rw [List.foldl_reverse, List.length_reverse]
    have h := foldr_digitsLE n acc
    have heq : (fun (x : ℕ) (y : ℕ) => (fun (a : ℕ) (d : ℕ) => 10 * a + d) y x) =
        fun d a => 10 * a + d := rfl
    rw [heq]
    exact h

theorem parseDigits_append (bs : List ℕ) : ∀ (acc : ℕ) (rest : List Char),
    (∀ d ∈ bs, d < 10) →
    (∀ c, rest.head? = some c → isDigitChar c = false) →
    parseDigits acc (bs.map digitChar ++ rest) =
      (bs.foldl (fun a d => 10 * a + d) acc, rest) := by
  induction bs with
  | nil =>
    intro acc rest _ hrest
    cases rest with
    | nil => rfl
    | cons c cs =>
      simp only [List.map_nil, List.nil_append, List.foldl_nil]
      unfold parseDigits
      rw [if_neg (by simp [hrest c rfl])]
  | cons b bs ih =>
    intro acc rest hbs hrest
    have hb : b < 10 := hbs b (by simp)
    simp only [List.map_cons, List.cons_append, List.foldl_cons]
    unfold parseDigits
    rw [if_pos (isDigitChar_digitChar b hb), digitVal_digitChar b hb]
    exact ih (10 * acc + b) rest (fun d hd => hbs d (by simp [hd])) hrest

theorem parseNat_natRepr (n : ℕ) (rest : List Char)
    (hrest : ∀ c, rest.head? = some c → isDigitChar c = false) :
    parseNat (natRepr n ++ rest) = some (n, rest) := by
  rcases hbe : natDigitsBE n with _ | ⟨d, ds⟩
  · exact absurd hbe (natDigitsBE_ne_nil n)
  · have hd : d < 10 := natDigitsBE_lt n d (by rw [hbe]; simp)
    have hds : ∀ x ∈ ds, x < 10 := fun x hx => natDigitsBE_lt n x (by rw [hbe]; simp [hx])
    unfold natRepr
    rw [hbe, List.map_cons, List.cons_append]
    simp only [parseNat]
    rw [if_pos (isDigitChar_digitChar d hd), digitVal_digitChar d hd,
      parseDigits_append ds d rest hds hrest]
    have hv := foldl_natDigitsBE n 0
    rw [hbe] at hv
    simp only [List.foldl_cons] at hv
    have hd0 : (10 : ℕ) * 0 + d = d := by omega
    rw [hd0] at hv
    simp only [zero_mul, zero_add] at hv
    rw [hv]

theorem natRepr_ne_nil (n : ℕ) : natRepr n ≠ [] := by
  unfold natRepr
  intro h
  exact natDigitsBE_ne_nil n (List.map_eq_nil_iff.mp h)

theorem natRepr_head_digit (n : ℕ) :
    ∃ d ds, d < 10 ∧ natRepr n = digitChar d :: ds := by
  rcases hbe : natDigitsBE n with _ | ⟨d, ds⟩
  · exact absurd hbe (natDigitsBE_ne_nil n)
  · refine ⟨d, ds.map digitChar, natDigitsBE_lt n d (by rw [hbe]; simp), ?_⟩
    unfold natRepr
    rw [hbe, List.map_cons]

theorem parseInt_intRepr (n : ℤ) (rest : List Char)
    (hrest : ∀ c, rest.head? = some c → isDigitChar c = false) :
    parseInt (intRepr n ++ rest) = some (n, rest) := by
  unfold intRepr
  split
  · rw [List.cons_append]
    simp only [parseInt]
    rw [if_pos trivial, parseNat_natRepr n.natAbs rest hrest]
    simp only [Option.map_some']
    have : -((n.natAbs : ℤ)) = n := by omega
    rw [this]
  · obtain ⟨d, ds, hd, hrepr⟩ := natRepr_head_digit n.natAbs
    rw [hrepr, List.cons_append]
    simp only [parseInt]
    rw [if_neg (by exact fun h => (digitChar_ne d hd).1 h), ← List.cons_append, ← hrepr,
      parseNat_natRepr n.natAbs rest hrest]
    simp only [Option.map_some']
    have : ((n.natAbs : ℤ)) = n := by omega
    rw [this]

theorem parseFrac_append (bs : List ℕ) : ∀ (accv acce : ℕ) (rest : List Char),
    (∀ d ∈ bs, d < 10) →
    (∀ c, rest.head? = some c → isDigitChar c = false) →
    parseFrac accv acce (bs.map digitChar ++ rest) =
      ((bs.foldl (fun a d => 10 * a + d) accv, acce + bs.length), rest) := by
  induction bs with
  | nil =>
    intro accv acce rest _ hrest
    cases rest with
    | nil => rfl
    | cons c cs =>
      simp only [List.map_nil, List.nil_append, List.foldl_nil, List.length_nil, Nat.add_zero]
      unfold parseFrac
      rw [if_neg (by simp [hrest c rfl])]
  | cons b bs ih =>
    intro accv acce rest hbs hrest
    have hb : b < 10 := hbs b (by simp)
    simp only [List.map_cons, List.cons_append, List.foldl_cons, List.length_cons]
    unfold parseFrac
    rw [if_pos (isDigitChar_digitChar b hb), digitVal_digitChar b hb]
    rw [ih (10 * accv + b) (acce + 1) rest (fun d hd => hbs d (by simp [hd])) hrest]
    have : acce + 1 + bs.length = acce + (bs.length + 1) := by omega
    rw [this]

theorem foldl_replicate_zero (k : ℕ) :
    (List.replicate k 0).foldl (fun a d => 10 * a + d) 0 = 0 := by
  induction k with
  | zero => rfl
  | succ m ih =>
    rw [List.replicate_succ, List.foldl_cons]
    simpa using ih

theorem foldl_padDigits (ds : List ℕ) (k : ℕ) :
    (padDigits ds k).foldl (fun a d => 10 * a + d) 0 =
      ds.foldl (fun a d => 10 * a + d) 0 := by
  unfold padDigits
  rw [List.foldl_append, foldl_replicate_zero]

theorem padDigits_lt (ds : List ℕ) (k : ℕ) (h : ∀ d ∈ ds, d < 10) :
    ∀ d ∈ padDigits ds k, d < 10 := by
  intro d hd
  rcases List.mem_append.mp hd with hm | hm
  · rw [List.eq_of_mem_replicate hm]
    norm_num
  · exact h d hm

theorem le_padDigits_length (ds : List ℕ) (k : ℕ) : k ≤ (padDigits ds k).length := by
  unfold padDigits
  rw [List.length_append, List.length_replicate]
  omega

theorem parseNat_digits (bs : List ℕ) (hne : bs ≠ []) (hbs : ∀ d ∈ bs, d < 10)
    (rest : List Char) (hrest : ∀ c, rest.head? = some c → isDigitChar c = false) :
    parseNat (bs.map digitChar ++ rest) =
      some (bs.foldl (fun a d => 10 * a + d) 0, rest) := by
  rcases bs with _ | ⟨d, ds⟩
  · exact absurd rfl hne
  · have hd : d < 10 := hbs d (by simp)
    have hds : ∀ x ∈ ds, x < 10 := fun x hx => hbs x (by simp [hx])
    rw [List.map_cons, List.cons_append]
    simp only [parseNat]
    rw [if_pos (isDigitChar_digitChar d hd), digitVal_digitChar d hd,
      parseDigits_append ds d rest hds hrest]
    simp only [List.foldl_cons]
    have hd0 : (10 : ℕ) * 0 + d = d := by omega
    rw [hd0]

theorem parseUNumber_digits_dot (ip fp : List ℕ) (hip_ne : ip ≠ []) (hfp_ne : fp ≠ [])
    (hip10 : ∀ d ∈ ip, d < 10) (hfp10 : ∀ d ∈ fp, d < 10)
    (rest : List Char) (hrest : ∀ c, rest.head? = some c → isDigitChar c = false) :
    parseUNumber (ip.map digitChar ++ ('.' :: (fp.map digitChar ++ rest))) =
      some (.sfloat ((ip.foldl (fun a d => 10 * a + d) 0 * 10 ^ fp.length +
        fp.foldl (fun a d => 10 * a + d) 0 : ℕ) : ℤ) fp.length, rest) := by
  have hstep1 : parseNat (ip.map digitChar ++ ('.' :: (fp.map digitChar ++ rest))) =
      some (ip.foldl (fun a d => 10 * a + d) 0, '.' :: (fp.map digitChar ++ rest)) :=
    parseNat_digits ip hip_ne hip10 _ (by
      intro c hc
      have h2 : some ('.' : Char) = some c := hc
      have h3 : c = '.' := (Option.some.inj h2).symm
      subst h3
      decide)
  rcases hfp : fp with _ | ⟨f0, fs⟩
  · exact absurd hfp hfp_ne
  · have hf0 : f0 < 10 := hfp10 f0 (by rw [hfp]; simp)
    have hfs : ∀ x ∈ fs, x < 10 := fun x hx => hfp10 x (by rw [hfp]; simp [hx])
    subst hfp
    unfold parseUNumber
    rw [hstep1]
    simp only [List.map_cons, List.cons_append]
    rw [if_pos trivial, if_pos (isDigitChar_digitChar f0 hf0)]
    have hfrac := parseFrac_append (f0 :: fs) 0 0 rest (by
        intro d hd
        rcases List.mem_cons.mp hd with h | h
        · subst h
          exact hf0
        · exact hfs _ h) hrest
    rw [List.map_cons, List.cons_append] at hfrac
    rw [hfrac]
    simp

theorem parseUNumber_floatDigits (n e : ℕ) (he : 1 ≤ e) (rest : List Char)
    (hrest : ∀ c, rest.head? = some c → isDigitChar c = false) :
    parseUNumber
      (((padDigits (natDigitsBE n) (e + 1)).take
          ((padDigits (natDigitsBE n) (e + 1)).length - e)).map digitChar ++
        ('.' :: (((padDigits (natDigitsBE n) (e + 1)).drop
          ((padDigits (natDigitsBE n) (e + 1)).length - e)).map digitChar ++ rest))) =
      some (.sfloat (n : ℤ) e, rest) := by
  have hlen : e + 1 ≤ (padDigits (natDigitsBE n) (e + 1)).length :=
    le_padDigits_length _ _
  have hlt10 : ∀ d ∈ padDigits (natDigitsBE n) (e + 1), d < 10 :=
    padDigits_lt _ _ (natDigitsBE_lt n)
  have hip10 : ∀ d ∈ (padDigits (natDigitsBE n) (e + 1)).take
      ((padDigits (natDigitsBE n) (e + 1)).length - e), d < 10 :=
    fun d hd => hlt10 d (List.mem_of_mem_take hd)
  have hfp10 : ∀ d ∈ (padDigits (natDigitsBE n) (e + 1)).drop
      ((padDigits (natDigitsBE n) (e + 1)).length - e), d < 10 :=
    fun d hd => hlt10 d (List.mem_of_mem_drop hd)
  have hip_ne : (padDigits (natDigitsBE n) (e + 1)).take
      ((padDigits (natDigitsBE n) (e + 1)).length - e) ≠ [] := by
    rw [← List.length_pos_iff_ne_nil, List.length_take]
    omega
  have hfp_len : ((padDigits (natDigitsBE n) (e + 1)).drop
      ((padDigits (natDigitsBE n) (e + 1)).length - e)).length = e := by
    rw [List.length_drop]
    omega
  have hfp_ne : (padDigits (natDigitsBE n) (e + 1)).drop
      ((padDigits (natDigitsBE n) (e + 1)).length - e) ≠ [] := by
    rw [← List.length_pos_iff_ne_nil, hfp_len]
    omega
  rw [parseUNumber_digits_dot _ _ hip_ne hfp_ne hip10 hfp10 rest hrest, hfp_len]
  have hval : ((padDigits (natDigitsBE n) (e + 1)).take
        ((padDigits (natDigitsBE n) (e + 1)).length - e)).foldl
          (fun a d => 10 * a + d) 0 * 10 ^ e +
      ((padDigits (natDigitsBE n) (e + 1)).drop
        ((padDigits (natDigitsBE n) (e + 1)).length - e)).foldl
          (fun a d => 10 * a + d) 0 = n := by
    have hsplit : (padDigits (natDigitsBE n) (e + 1)).take
          ((padDigits (natDigitsBE n) (e + 1)).length - e) ++
        (padDigits (natDigitsBE n) (e + 1)).drop
          ((padDigits (natDigitsBE n) (e + 1)).length - e) =
        padDigits (natDigitsBE n) (e + 1) := List.take_append_drop _ _
    have hds_val : (padDigits (natDigitsBE n) (e + 1)).foldl
        (fun a d => 10 * a + d) 0 = n := by
      rw [foldl_padDigits]
      have := foldl_natDigitsBE n 0
      simpa using this
    conv_rhs => rw [← hds_val]
    conv_rhs => rw [← hsplit]
    rw [List.foldl_append]
    have hshift := foldl_shift ((padDigits (natDigitsBE n) (e + 1)).drop
      ((padDigits (natDigitsBE n) (e + 1)).length - e))
      (((padDigits (natDigitsBE n) (e + 1)).take
        ((padDigits (natDigitsBE n) (e + 1)).length - e)).foldl (fun a d => 10 * a + d) 0)
    rw [hfp_len] at hshift
    rw [hshift]
  rw [hval]

theorem parseNumber_floatReprCore (m : ℤ) (e : ℕ) (he : 1 ≤ e) (rest : List Char)
    (hrest : ∀ c, rest.head? = some c → isDigitChar c = false) :
    parseNumber (floatReprCore m e ++ rest) = some (.sfloat m e, rest) := by
  have hcore := parseUNumber_floatDigits m.natAbs e he rest hrest
  by_cases hm : m < 0
  · have hshape : floatReprCore m e ++ rest =
        '-' :: (((padDigits (natDigitsBE m.natAbs) (e + 1)).take
            ((padDigits (natDigitsBE m.natAbs) (e + 1)).length - e)).map digitChar ++
          ('.' :: (((padDigits (natDigitsBE m.natAbs) (e + 1)).drop
            ((padDigits (natDigitsBE m.natAbs) (e + 1)).length - e)).map digitChar ++
              rest))) := by
      simp only [floatReprCore, if_pos hm, List.append_assoc, List.cons_append,
        List.singleton_append, List.nil_append]
    rw [hshape]
    simp only [parseNumber]
    rw [if_pos trivial, hcore]
    simp only [Option.map_some', negScalar]
    have hneg : -((m.natAbs : ℤ)) = m := by omega
    rw [hneg]
  · have hlen : e + 1 ≤ (padDigits (natDigitsBE m.natAbs) (e + 1)).length :=
      le_padDigits_length _ _
    have hip_ne : (padDigits (natDigitsBE m.natAbs) (e + 1)).take
        ((padDigits (natDigitsBE m.natAbs) (e + 1)).length - e) ≠ [] := by
      rw [← List.length_pos_iff_ne_nil, List.length_take]
      omega
    rcases hip' : (padDigits (natDigitsBE m.natAbs) (e + 1)).take
        ((padDigits (natDigitsBE m.natAbs) (e + 1)).length - e) with _ | ⟨i0, irest⟩
    · exact absurd hip' hip_ne
    · have hi0 : i0 < 10 :=
        padDigits_lt (natDigitsBE m.natAbs) (e + 1) (natDigitsBE_lt _) i0
          (List.mem_of_mem_take (by rw [hip']; simp))
      have hshape : floatReprCore m e ++ rest =
          digitChar i0 :: (irest.map digitChar ++
            ('.' :: (((padDigits (natDigitsBE m.natAbs) (e + 1)).drop
              ((padDigits (natDigitsBE m.natAbs) (e + 1)).length - e)).map digitChar ++
                rest))) := by
        simp only [floatReprCore, if_neg hm, List.nil_append, hip', List.map_cons,
          List.cons_append, List.append_assoc]
      rw [hshape]
      simp only [parseNumber]
      rw [if_neg (fun hh => (digitChar_ne i0 hi0).1 hh)]
      rw [hip', List.map_cons, List.cons_append] at hcore
      rw [hcore]
      have hpos : ((m.natAbs : ℤ)) = m := by omega
      rw [hpos]

theorem parseNumber_intRepr (n : ℤ) (rest : List Char)
    (hrest : ∀ c, rest.head? = some c → isDigitChar c = false ∧ c ≠ '.') :
    parseNumber (intRepr n ++ rest) = some (.sint n, rest) := by
  have hU : parseUNumber (natRepr n.natAbs ++ rest) = some (.sint (n.natAbs : ℤ), rest) := by
    unfold parseUNumber
    rw [parseNat_natRepr n.natAbs rest (fun c hc => (hrest c hc).1)]
    rcases rest with _ | ⟨c, cs⟩
    · rfl
    · have hc := hrest c rfl
      simp only
      rw [if_neg hc.2]
  unfold intRepr
  split
  · rw [List.cons_append]
    simp only [parseNumber]
    rw [if_pos trivial, hU]
    simp only [Option.map_some', negScalar]
    have hneg : -((n.natAbs : ℤ)) = n := by omega
    rw [hneg]
  · obtain ⟨d, ds, hd, hrepr⟩ := natRepr_head_digit n.natAbs
    rw [hrepr, List.cons_append]
    simp only [parseNumber]
    rw [if_neg (fun hh => (digitChar_ne d hd).1 hh)]
    rw [hrepr, List.cons_append] at hU
    rw [hU]
    have hpos : ((n.natAbs : ℤ)) = n := by omega
    rw [hpos]

theorem takeWhile_append_all {p : Char → Bool} (l r : List Char)
    (hl : ∀ c ∈ l, p c = true) (hr : ∀ c, r.head? = some c → p c = false) :
    (l ++ r).takeWhile p = l ∧ (l ++ r).dropWhile p = r := by
  induction l with
  | nil =>
    cases r with
    | nil => exact ⟨rfl, rfl⟩
    | cons c cs =>
      have hc := hr c rfl
      constructor
      · simp [List.takeWhile_cons, hc]
      · simp [List.dropWhile_cons, hc]
  | cons a l ih =>
    have ha : p a = true := hl a (by simp)
    have ih' := ih (fun c hc => hl c (by simp [hc]))
    constructor
    · simp [List.takeWhile_cons, ha, ih'.1]
    · simp [List.dropWhile_cons, ha, ih'.2]

theorem intRepr_head (n : ℤ) :
    ∃ c tl, intRepr n = c :: tl ∧ (c = '-' ∨ ∃ d, d < 10 ∧ c = digitChar d) := by
  unfold intRepr
  split
  · exact ⟨'-', _, rfl, Or.inl rfl⟩
  · obtain ⟨d, ds, hd, hrepr⟩ := natRepr_head_digit n.natAbs
    exact ⟨digitChar d, ds, hrepr, Or.inr ⟨d, hd, rfl⟩⟩

theorem parseKey_keyRepr (k : PyKey) (hk : validKey k = true) (rest : List Char)
    (hrest : ∀ c, rest.head? = some c → isDigitChar c = false) :
    parseKey (keyRepr k ++ rest) = some (k, rest) := by
  cases k with
  | kint n =>
    obtain ⟨c, tl, hrepr, hc⟩ := intRepr_head n
    have hcq : ¬ (c = quoteChar) := by
      rcases hc with h | ⟨d, hd, h⟩
      · subst h
        decide
      · subst h
        exact (digitChar_ne d hd).2.2.1
    show parseKey (intRepr n ++ rest) = _
    rw [hrepr, List.cons_append]
    simp only [parseKey]
    rw [if_neg hcq, ← List.cons_append, ← hrepr, parseInt_intRepr n rest hrest]
    rfl
  | kstr s =>
    obtain ⟨sd⟩ := s
    have hnotmem : quoteChar ∉ sd := by
      have h2 : sd.contains quoteChar = false := by
        simpa [validKey] using hk
      simpa using h2
    have hmem : ∀ c ∈ sd, (c != quoteChar) = true := by
      intro c hc
      simp only [bne_iff_ne, ne_eq]
      intro he
      subst he
      exact hnotmem hc
    have htd := takeWhile_append_all (p := fun x => x != quoteChar) sd (quoteChar :: rest)
      hmem (by
        intro c hc
        have h2 : some quoteChar = some c := hc
        have h3 : c = quoteChar := (Option.some.inj h2).symm
        subst h3
        simp)
    show parseKey ((quoteChar :: (sd ++ [quoteChar])) ++ rest) = _
    rw [List.cons_append, List.append_assoc, List.singleton_append]
    simp only [parseKey]
    rw [if_pos trivial]
    simp only [htd.1, htd.2]
    rw [if_pos trivial]

theorem parseNumber_scalarRepr (v : PyScalar) (hv : validScalar v = true) (rest : List Char)
    (hrest : ∀ c, rest.head? = some c → isDigitChar c = false ∧ c ≠ '.') :
    parseNumber (scalarRepr v ++ rest) = some (v, rest) := by
  cases v with
  | sint n => exact parseNumber_intRepr n rest hrest
  | sfloat m e =>
    have he : 1 ≤ e := by
      simpa [validScalar] using hv
    show parseNumber (floatRepr m e ++ rest) = _
    unfold floatRepr
    rw [if_neg (by omega)]
    exact parseNumber_floatReprCore m e he rest (fun c hc => (hrest c hc).1)

theorem parseEntries_entriesRepr :
    ∀ (l : List (PyKey × PyScalar)), l ≠ [] → validEntries l = true →
    ∀ (fuel : ℕ), l.length ≤ fuel → ∀ rest : List Char,
    parseEntries fuel (entriesRepr l ++ rest) = some (l, rest) := by
  intro l
  induction l with
  | nil => intro h; exact absurd rfl h
  | cons kv tl ih =>
    rcases kv with ⟨k, v⟩
    intro _ hval fuel hfuel rest
    have hkv : validKey k = true ∧ validScalar v = true := by
      have := hval
      simp only [validEntries, List.all_cons, Bool.and_eq_true] at this
      exact this.1
    have hvtl : validEntries tl = true := by
      have := hval
      simp only [validEntries, List.all_cons, Bool.and_eq_true] at this
      exact this.2
    rcases fuel with _ | f
    · simp at hfuel
    rcases tl with _ | ⟨e1, tl'⟩
    · -- single entry: separator is the closing brace
      have hkey := parseKey_keyRepr k hkv.1
        (':' :: (' ' :: (scalarRepr v ++ (rbraceChar :: rest)))) (by
          intro c hc
          have h3 : c = ':' := (Option.some.inj hc).symm
          subst h3
          decide)
      have hnum := parseNumber_scalarRepr v hkv.2 (rbraceChar :: rest) (by
          intro c hc
          have h3 : c = rbraceChar := (Option.some.inj hc).symm
          subst h3
          exact ⟨by decide, by decide⟩)
      have hshape : entriesRepr [(k, v)] ++ rest =
          keyRepr k ++ (':' :: (' ' :: (scalarRepr v ++ (rbraceChar :: rest)))) := by
        simp only [entriesRepr, List.append_assoc, List.cons_append, List.singleton_append,
          List.nil_append]
      rw [hshape]
      simp only [parseEntries, hkey, hnum]
      simp
    · -- more entries: separator is ", "
      have hkey := parseKey_keyRepr k hkv.1
        (':' :: (' ' :: (scalarRepr v ++ (',' :: (' ' :: (entriesRepr (e1 :: tl') ++ rest))))))
        (by
          intro c hc
          have h3 : c = ':' := (Option.some.inj hc).symm
          subst h3
          decide)
      have hnum := parseNumber_scalarRepr v hkv.2
        (',' :: (' ' :: (entriesRepr (e1 :: tl') ++ rest))) (by
          intro c hc
          have h3 : c = ',' := (Option.some.inj hc).symm
          subst h3
          exact ⟨by decide, by decide⟩)
      have hrec := ih (List.cons_ne_nil e1 tl') hvtl f (by
          simp only [List.length_cons] at hfuel ⊢
          omega) rest
      have hshape : entriesRepr ((k, v) :: e1 :: tl') ++ rest =
          keyRepr k ++
            (':' :: (' ' :: (scalarRepr v ++
              (',' :: (' ' :: (entriesRepr (e1 :: tl') ++ rest)))))) := by
        simp only [entriesRepr, List.append_assoc, List.cons_append, List.singleton_append,
          List.nil_append]
      rw [hshape]
      simp only [parseEntries, hkey, hnum, hrec]
      simp
      decide

theorem length_le_entriesRepr : ∀ l : List (PyKey × PyScalar),
    l.length ≤ (entriesRepr l).length := by
  intro l
  induction l with
  | nil => simp [entriesRepr]
  | cons kv tl ih =>
    rcases kv with ⟨k, v⟩
    rcases tl with _ | ⟨e1, tl'⟩
    · simp only [entriesRepr, List.length_append, List.length_cons, List.length_nil]
      omega
    · simp only [entriesRepr, List.length_append, List.length_cons] at ih ⊢
      omega

theorem keyRepr_head_ne_rbrace (k : PyKey) :
    ∃ c tl, keyRepr k = c :: tl ∧ c ≠ rbraceChar := by
  cases k with
  | kint n =>
    obtain ⟨c, tl, hrepr, hc⟩ := intRepr_head n
    refine ⟨c, tl, hrepr, ?_⟩
    rcases hc with h | ⟨d, hd, h⟩
    · subst h
      decide
    · subst h
      exact (digitChar_ne d hd).2.2.2.2.1
  | kstr s => exact ⟨quoteChar, _, rfl, by decide⟩

theorem parseDict_dictRepr (l : List (PyKey × PyScalar)) (hl : validEntries l = true)
    (rest : List Char) :
    parseDict (dictRepr l ++ rest) = some (.pydict l, rest) := by
  rcases l with _ | ⟨e0, tl⟩
  · show parseDict (lbraceChar :: (rbraceChar :: rest)) = _
    simp only [parseDict]
    rw [if_pos trivial, if_pos trivial]
  · obtain ⟨c, ctl, hrepr, hc⟩ := keyRepr_head_ne_rbrace e0.1
    have hhead : ∃ tl2, entriesRepr (e0 :: tl) ++ rest = c :: tl2 := by
      rcases e0 with ⟨k, v⟩
      rcases tl with _ | ⟨e1, tl'⟩
      · simp only [entriesRepr]
        rw [show keyRepr (k, v).1 = c :: ctl from hrepr]
        exact ⟨ctl ++ (':' :: ' ' :: (scalarRepr v ++ [rbraceChar])) ++ rest, by
          simp [List.cons_append, List.append_assoc]⟩
      · simp only [entriesRepr]
        rw [show keyRepr (k, v).1 = c :: ctl from hrepr]
        exact ⟨ctl ++ (':' :: ' ' ::
            (scalarRepr v ++ (',' :: ' ' :: entriesRepr (e1 :: tl')))) ++ rest, by
          simp [entriesRepr, List.cons_append, List.append_assoc]⟩
    obtain ⟨tl2, htl2⟩ := hhead
    have hshape : dictRepr (e0 :: tl) ++ rest =
        lbraceChar :: (entriesRepr (e0 :: tl) ++ rest) := by
      simp [dictRepr]
    rw [hshape]
    simp only [parseDict]
    rw [if_pos trivial]
    simp only [htl2]
    rw [if_neg hc, ← htl2]
    rw [parseEntries_entriesRepr (e0 :: tl) (List.cons_ne_nil _ _) hl
      ((entriesRepr (e0 :: tl) ++ rest).length) (by
        have h1 := length_le_entriesRepr (e0 :: tl)
        rw [List.length_append]
        omega) rest]
    rfl

theorem parseTuple_tupleRepr (a b : ℤ) (rest : List Char) :
    parseTuple (tupleRepr a b ++ rest) = some (.pytuple a b, rest) := by
  have hInt1 := parseInt_intRepr a (',' :: (' ' :: (intRepr b ++ (')' :: rest)))) (by
    intro c hc
    have h3 : c = ',' := (Option.some.inj hc).symm
    subst h3
    decide)
  have hInt2 := parseInt_intRepr b (')' :: rest) (by
    intro c hc
    have h3 : c = ')' := (Option.some.inj hc).symm
    subst h3
    decide)
  have hshape : tupleRepr a b ++ rest =
      '(' :: (intRepr a ++ (',' :: (' ' :: (intRepr b ++ (')' :: rest))))) := by
    simp [tupleRepr, List.cons_append, List.append_assoc]
  rw [hshape]
  simp only [parseTuple]
  rw [if_pos trivial]
  simp only [hInt1, hInt2]
  simp

theorem string_mk_ne {cs : List Char} {c : Char} (hc : cs.head? = some c) {s : String}
    (hne : s.data.head? ≠ some c) : String.mk cs ≠ s := by
  intro h
  apply hne
  rw [← h]
  exact hc

theorem dictRepr_head (l : List (PyKey × PyScalar)) :
    (dictRepr l).head? = some lbraceChar := by
  rcases l with _ | ⟨e0, tl⟩ <;> rfl

theorem literalEval_dictRepr (l : List (PyKey × PyScalar)) (hl : validEntries l = true) :
    literalEval (String.mk (dictRepr l)) = some (.pydict l) := by
  have hhd := dictRepr_head l
  have hdata : (String.mk (dictRepr l)).data = dictRepr l := rfl
  unfold literalEval
  rw [if_neg (string_mk_ne hhd (by decide)), if_neg (string_mk_ne hhd (by decide)),
    if_neg (string_mk_ne hhd (by decide))]
  rcases hdr : dictRepr l with _ | ⟨c0, tl0⟩
  · rw [hdr] at hhd
    exact absurd hhd (by simp)
  · rw [hdr] at hhd
    have hc0 : c0 = lbraceChar := Option.some.inj hhd
    subst hc0
    have hpd := parseDict_dictRepr l hl []
    rw [List.append_nil, hdr] at hpd
    dsimp only
    rw [if_pos rfl, hpd]

theorem literalEval_tupleRepr (a b : ℤ) :
    literalEval (String.mk (tupleRepr a b)) = some (.pytuple a b) := by
  have hhd : (tupleRepr a b).head? = some '(' := rfl
  have hdata : (String.mk (tupleRepr a b)).data = tupleRepr a b := rfl
  unfold literalEval
  rw [if_neg (string_mk_ne hhd (by decide)), if_neg (string_mk_ne hhd (by decide)),
    if_neg (string_mk_ne hhd (by decide))]
  rcases hdr : tupleRepr a b with _ | ⟨c0, tl0⟩
  · rw [hdr] at hhd
    exact absurd hhd (by simp)
  · rw [hdr] at hhd
    have hc0 : c0 = '(' := Option.some.inj hhd
    subst hc0
    have hpt := parseTuple_tupleRepr a b []
    rw [List.append_nil, hdr] at hpt
    dsimp only
    rw [if_neg (by decide), if_pos rfl, hpt]

theorem to_int_as_string (n : ℤ) : to_int (as_string (.pyint n)) = .ok (some n) := by
  obtain ⟨c, tl, hrepr, hc⟩ := intRepr_head n
  have hhd : (intRepr n).head? = some c := by rw [hrepr]; rfl
  have hcn : c ≠ 'N' := by
    rcases hc with h | ⟨d, hd, h⟩
    · subst h
      decide
    · subst h
      exact (digitChar_ne d hd).2.2.2.2.2.2
  have hne : String.mk (intRepr n) ≠ "None" :=
    string_mk_ne hhd (by
      intro h
      exact hcn (Option.some.inj h).symm)
  show to_int (String.mk (intRepr n)) = _
  unfold to_int
  rw [if_pos hne]
  have hdata : (String.mk (intRepr n)).data = intRepr n := rfl
  rw [hdata]
  have hparse := parseInt_intRepr n [] (by
    intro c' hc'
    exact Option.noConfusion hc')
  rw [List.append_nil] at hparse
  rw [hparse]

theorem floatReprCore_head (m : ℤ) (e : ℕ) :
    ∃ c tl, floatReprCore m e = c :: tl ∧ (c = '-' ∨ ∃ d, d < 10 ∧ c = digitChar d) := by
  have hlen : e + 1 ≤ (padDigits (natDigitsBE m.natAbs) (e + 1)).length :=
    le_padDigits_length _ _
  have hip_ne : (padDigits (natDigitsBE m.natAbs) (e + 1)).take
      ((padDigits (natDigitsBE m.natAbs) (e + 1)).length - e) ≠ [] := by
    rw [← List.length_pos_iff_ne_nil, List.length_take]
    omega
  rcases hip' : (padDigits (natDigitsBE m.natAbs) (e + 1)).take
      ((padDigits (natDigitsBE m.natAbs) (e + 1)).length - e) with _ | ⟨i0, irest⟩
  · exact absurd hip' hip_ne
  · have hi0 : i0 < 10 :=
      padDigits_lt (natDigitsBE m.natAbs) (e + 1) (natDigitsBE_lt _) i0
        (List.mem_of_mem_take (by rw [hip']; simp))
    by_cases hm : m < 0
    · refine ⟨'-', ((padDigits (natDigitsBE m.natAbs) (e + 1)).take
          ((padDigits (natDigitsBE m.natAbs) (e + 1)).length - e)).map digitChar ++
          '.' :: ((padDigits (natDigitsBE m.natAbs) (e + 1)).drop
          ((padDigits (natDigitsBE m.natAbs) (e + 1)).length - e)).map digitChar,
        ?_, Or.inl rfl⟩
      simp only [floatReprCore, if_pos hm, List.cons_append, List.singleton_append,
        List.nil_append]
    · refine ⟨digitChar i0, irest.map digitChar ++
          '.' :: ((padDigits (natDigitsBE m.natAbs) (e + 1)).drop
          ((padDigits (natDigitsBE m.natAbs) (e + 1)).length - e)).map digitChar,
        ?_, Or.inr ⟨i0, hi0, rfl⟩⟩
      simp only [floatReprCore, if_neg hm, List.nil_append, hip', List.map_cons,
        List.cons_append]

theorem to_float_as_string (m : ℤ) (e : ℕ) (he : 1 ≤ e) :
    to_float (as_string (.pyfloat m e)) = .ok (some (m, e)) := by
  have hfr : floatRepr m e = floatReprCore m e := by
    unfold floatRepr
    rw [if_neg (by omega)]
  obtain ⟨c, tl, hrepr, hc⟩ := floatReprCore_head m e
  have hhd : (floatRepr m e).head? = some c := by rw [hfr, hrepr]; rfl
  have hcn : c ≠ 'N' := by
    rcases hc with h | ⟨d, hd, h⟩
    · subst h
      decide
    · subst h
      exact (digitChar_ne d hd).2.2.2.2.2.2
  have hne : String.mk (floatRepr m e) ≠ "None" :=
    string_mk_ne hhd (by
      intro h
      exact hcn (Option.some.inj h).symm)
  show to_float (String.mk (floatRepr m e)) = _
  unfold to_float
  rw [if_pos hne]
  have hdata : (String.mk (floatRepr m e)).data = floatRepr m e := rfl
  rw [hdata, hfr]
  have hnum := parseNumber_floatReprCore m e he [] (by
    intro c' hc'
    exact Option.noConfusion hc')
  rw [List.append_nil] at hnum
  unfold parseFloat
  rw [hnum]

theorem to_bool_as_string (b : Bool) : to_bool (as_string (.pybool b)) = .ok (.pybool b) := by
  cases b <;> decide

theorem to_str_as_string (s : String) (hs : s ≠ "None") :
    to_str (as_string (.pystr s)) = some s := by
  obtain ⟨sd⟩ := s
  show to_str (String.mk sd) = _
  unfold to_str
  rw [if_pos hs]

theorem to_dict_as_string (l : List (PyKey × PyScalar)) (hl : validEntries l = true) :
    to_dict (as_string (.pydict l)) = .ok (.pydict l) := by
  have hne : String.mk (dictRepr l) ≠ "None" :=
    string_mk_ne (dictRepr_head l) (by decide)
  show to_dict (String.mk (dictRepr l)) = _
  unfold to_dict
  rw [if_pos hne, literalEval_dictRepr l hl]

theorem to_tuple_as_string (a b : ℤ) :
    to_tuple (as_string (.pytuple a b)) = .ok (.pytuple a b) := by
  have hne : String.mk (tupleRepr a b) ≠ "None" :=
    string_mk_ne (rfl : (tupleRepr a b).head? = some '(') (by decide)
  show to_tuple (String.mk (tupleRepr a b)) = _
  unfold to_tuple
  rw [if_pos hne, literalEval_tupleRepr a b]

/-- C2 (amended): every registered attribute type round-trips through the
codec — booleans encode as `"1"`/`"0"` and decode back; ints, floats, dicts
and tuples invert `as_string`; the null value encodes as the sentinel
literal `'None'` and decodes back to null — but `to_str` inverts `as_string`
only on strings *other than* `"None"`: the genuine string `"None"` collides
with the sentinel and decodes to null.  (Floats are decimal literals with at
least one fraction digit, as `str` prints them; dict keys hold no quote
character.) -/
theorem codec_round_trip :
    (∀ b : Bool, to_bool (as_string (.pybool b)) = .ok (.pybool b)) ∧
    (∀ b : Bool, as_string (.pybool b) = if b then "1" else "0") ∧
    (∀ n : ℤ, to_int (as_string (.pyint n)) = .ok (some n)) ∧
    (∀ (m : ℤ) (e : ℕ), 1 ≤ e → to_float (as_string (.pyfloat m e)) = .ok (some (m, e))) ∧
    (∀ l : List (PyKey × PyScalar), validEntries l = true →
        to_dict (as_string (.pydict l)) = .ok (.pydict l)) ∧
    (∀ a b : ℤ, to_tuple (as_string (.pytuple a b)) = .ok (.pytuple a b)) ∧
    (∀ s : String, s ≠ "None" → to_str (as_string (.pystr s)) = some s) ∧
    (as_string .pynone = "None" ∧ to_int "None" = .ok none ∧ to_float "None" = .ok none ∧
      to_dict "None" = .ok .pynone ∧ to_tuple "None" = .ok .pynone ∧
      to_str "None" = none) :=
  ⟨to_bool_as_string, fun b => by cases b <;> rfl, to_int_as_string,
    fun m e he => to_float_as_string m e he, to_dict_as_string, to_tuple_as_string,
    to_str_as_string,
    by decide, by decide, by decide, by decide, by decide, by decide⟩

/-- C2 witness: every converter applied to a concrete encoded value of its
type, with all side conditions discharged. -/
theorem codec_round_trip_witness :
    (1 ≤ 1 ∧ to_float (as_string (.pyfloat (-105) 1)) = .ok (some (-105, 1))) ∧
    (validEntries [(.kint 50, .sfloat 100 1), (.kstr "road", .sint 2)] = true ∧
      to_dict (as_string (.pydict [(.kint 50, .sfloat 100 1), (.kstr "road", .sint 2)])) =
        .ok (.pydict [(.kint 50, .sfloat 100 1), (.kstr "road", .sint 2)])) ∧
    (("abc" : String) ≠ "None" ∧ to_str (as_string (.pystr "abc")) = some "abc") ∧
    to_bool (as_string (.pybool true)) = .ok (.pybool true) ∧
    to_int (as_string (.pyint (-12))) = .ok (some (-12)) ∧
    to_tuple (as_string (.pytuple (-3) 55)) = .ok (.pytuple (-3) 55) :=
  ⟨⟨by decide, codec_round_trip.2.2.2.1 (-105) 1 (by decide)⟩,
    ⟨by decide, codec_round_trip.2.2.2.2.1 _ (by decide)⟩,
    ⟨by decide, codec_round_trip.2.2.2.2.2.2.1 "abc" (by decide)⟩,
    codec_round_trip.1 true,
    codec_round_trip.2.2.1 (-12),
    codec_round_trip.2.2.2.2.2.1 (-3) 55⟩

/-- C2 counterexample: the claim as stated is false for strings — the string
`"None"` encodes to the sentinel literal, which `to_str` decodes to null, not
back to the original string. -/
theorem codec_round_trip_counterexample :
    to_str (as_string (.pystr "None")) ≠ some "None" := by decide

/-! ## Export frame property (C3) -/

lemma export_node_attrs_all_frame (gc g : ℕ) (hg : g ≠ gc) :
    ∀ (keys : List String) (σ : List Graph),
      ((export_node_attrs_all gc keys σ).1).get? g = σ.get? g := by
  intro keys
  induction keys with
  | nil => intro σ; rfl
  | cons a rest ih =>
    intro σ
    rw [export_node_attrs_all]
    split
    · rfl
    · split
      · rfl
      · split
        all_goals first
          | exact ih σ
          | (rw [ih]; exact List.get?_set_ne _ _ hg.symm)

lemma export_node_attrs_selected_frame (gc g : ℕ) (hg : g ≠ gc) :
    ∀ (keys : List String) (σ : List Graph),
      ((export_node_attrs_selected gc keys σ).1).get? g = σ.get? g := by
  intro keys
  induction keys with
  | nil => intro σ; rfl
  | cons a rest ih =>
    intro σ
    rw [export_node_attrs_selected]
    split
    · rfl
    · split
      · rfl
      · rw [ih]
        exact List.get?_set_ne _ _ hg.symm

lemma delete_node_attrs_frame (gc g : ℕ) (hg : g ≠ gc) (keep : List String) :
    ∀ (keys : List String) (σ : List Graph),
      ((delete_node_attrs gc keep keys σ).1).get? g = σ.get? g := by
  intro keys
  induction keys with
  | nil => intro σ; rfl
  | cons a rest ih =>
    intro σ
    rw [delete_node_attrs]
    split
    · rfl
    · split
      · exact ih σ
      · rw [ih]
        exact List.get?_set_ne _ _ hg.symm

lemma export_edge_attrs_all_frame (gc g : ℕ) (hg : g ≠ gc) :
    ∀ (keys : List String) (σ : List Graph),
      ((export_edge_attrs_all gc keys σ).1).get? g = σ.get? g := by
  intro keys
  induction keys with
  | nil => intro σ; rfl
  | cons a rest ih =>
    intro σ
    rw [export_edge_attrs_all]
    split
    · rfl
    · split
      · rfl
      · split
        all_goals first
          | exact ih σ
          | (rw [ih]; exact List.get?_set_ne _ _ hg.symm)

lemma export_edge_attrs_selected_frame (gc g : ℕ) (hg : g ≠ gc) :
    ∀ (keys : List String) (σ : List Graph),
      ((export_edge_attrs_selected gc keys σ).1).get? g = σ.get? g := by
  intro keys
  induction keys with
  | nil => intro σ; rfl
  | cons a rest ih =>
    intro σ
    rw [export_edge_attrs_selected]
    split
    · rfl
    · split
      · rfl
      · rw [ih]
        exact List.get?_set_ne _ _ hg.symm

lemma delete_edge_attrs_frame (gc g : ℕ) (hg : g ≠ gc) (keep : List String) :
    ∀ (keys : List String) (σ : List Graph),
      ((delete_edge_attrs gc keep keys σ).1).get? g = σ.get? g := by
  intro keys
  induction keys with
  | nil => intro σ; rfl
  | cons a rest ih =>
    intro σ
    rw [delete_edge_attrs]
    split
    · rfl
    · split
      · exact ih σ
      · rw [ih]
        exact List.get?_set_ne _ _ hg.symm

lemma export_node_phase_frame (gc g : ℕ) (hg : g ≠ gc) (na names : List String)
    (σ : List Graph) : ((export_node_phase gc na names σ).1).get? g = σ.get? g := by
  rw [export_node_phase]
  split
  · exact export_node_attrs_all_frame gc g hg node_attr_values σ
  · split
    next σ2 e heq =>
      have h := export_node_attrs_selected_frame gc g hg na σ
      rw [heq] at h
      exact h
    next σ2 heq =>
      have h := export_node_attrs_selected_frame gc g hg na σ
      rw [heq] at h
      exact (delete_node_attrs_frame gc g hg na names σ2).trans h

lemma export_edge_phase_frame (gc g : ℕ) (hg : g ≠ gc) (ea names : List String)
    (σ : List Graph) : ((export_edge_phase gc ea names σ).1).get? g = σ.get? g := by
  rw [export_edge_phase]
  split
  · exact export_edge_attrs_all_frame gc g hg edge_attr_values σ
  · split
    next σ2 e heq =>
      have h := export_edge_attrs_selected_frame gc g hg ea σ
      rw [heq] at h
      exact h
    next σ2 heq =>
      have h := export_edge_attrs_selected_frame gc g hg ea σ
      rw [heq] at h
      exact (delete_edge_attrs_frame gc g hg ea names σ2).trans h

/-- C3: exporting a graph to GraphML never mutates the exported graph
itself: whatever attribute subsets are requested and whether or not the
export raises on the way, the source graph object in the store is
unchanged — all stringification, attribute deletion and the probe error
happen on the fresh working copy. -/
theorem export_to_graphml_preserves_source :
    ∀ (σ : List Graph) (g : ℕ) (n_attrs e_attrs : List String),
      ((export_to_graphml σ g n_attrs e_attrs).1).get? g = σ.get? g := by
  intro σ g na ea
  rw [export_to_graphml]
  split
  · rfl
  next G hσ =>
    have hg : g ≠ σ.length := by
      intro h
      rw [h, List.get?_length] at hσ
      exact Option.noConfusion hσ
    have hg_lt : g < σ.length := (List.get?_eq_some.mp hσ).1
    have happend : (σ ++ [G]).get? g = σ.get? g := List.get?_append hg_lt
    split
    next σ2 e heq =>
      have h := export_node_phase_frame σ.length g hg na (vsAttrNames G) (σ ++ [G])
      rw [heq] at h
      exact h.trans happend
    next σ2 heq =>
      have h := export_node_phase_frame σ.length g hg na (vsAttrNames G) (σ ++ [G])
      rw [heq] at h
      exact (export_edge_phase_frame σ.length g hg ea (esAttrNames G) σ2).trans
        (h.trans happend)

/-! ## Import: column-store lemmas and loop step equations (C9, C10) -/

lemma getCol_setCol_ne (attrs : List (String × List PyValue)) (k a : String)
    (col : List PyValue) (hka : k ≠ a) :
    getCol (setCol attrs k col) a = getCol attrs a := by
  induction attrs with
  | nil => rfl
  | cons p rest ih =>
    by_cases hpk : p.1 = k
    · have hpa : (p.1 == a) = false := by
        simp only [beq_eq_false_iff_ne]
        rw [hpk]; exact hka
      simp only [setCol, List.map_cons, getCol, List.find?] at *
      rw [if_pos (by simp [hpk])]
      have hk : (k == a) = false := by simp [hka]
      rw [hk, hpa]
      exact ih
    · simp only [setCol, List.map_cons, getCol, List.find?] at *
      rw [if_neg (by simp [hpk])]
      by_cases hpa : p.1 = a
      · rw [show (p.1 == a) = true by simp [hpa]]
      · rw [show (p.1 == a) = false by simp [hpa]]
        exact ih

lemma getCol_setCol_self (attrs : List (String × List PyValue)) (k : String)
    (col : List PyValue) (h : (getCol attrs k).isSome = true) :
    getCol (setCol attrs k col) k = some col := by
  induction attrs with
  | nil => simp [getCol, List.find?] at h
  | cons p rest ih =>
    by_cases hpk : p.1 = k
    · simp only [setCol, List.map_cons, getCol, List.find?]
      rw [if_pos (by simp [hpk])]
      rw [show (k == k) = true by simp]
      rfl
    · simp only [setCol, List.map_cons, getCol, List.find?] at *
      rw [if_neg (by simp [hpk])]
      rw [show (p.1 == k) = false by simp [hpk]] at h ⊢
      exact ih h

lemma getVsCol_setVsCol_ne (G : Graph) (k a : String) (col : List PyValue)
    (hka : k ≠ a) : getVsCol (setVsCol G k col) a = getVsCol G a :=
  getCol_setCol_ne G.vsAttrs k a col hka

lemma getVsCol_setVsCol_self (G : Graph) (k : String) (col : List PyValue)
    (h : (getVsCol G k).isSome = true) : getVsCol (setVsCol G k col) k = some col :=
  getCol_setCol_self G.vsAttrs k col h

lemma getEsCol_setEsCol_ne (G : Graph) (k a : String) (col : List PyValue)
    (hka : k ≠ a) : getEsCol (setEsCol G k col) a = getEsCol G a :=
  getCol_setCol_ne G.esAttrs k a col hka

lemma getEsCol_setEsCol_self (G : Graph) (k : String) (col : List PyValue)
    (h : (getEsCol G k).isSome = true) : getEsCol (setEsCol G k col) k = some col :=
  getCol_setCol_self G.esAttrs k col h

lemma nodeDecode_congr (gp : String → Except String PyValue) (G G2 : Graph)
    (a : String) (h : getVsCol G2 a = getVsCol G a) :
    nodeDecode gp G2 a = nodeDecode gp G a := by
  simp only [nodeDecode, h]

lemma edgeDecode_congr (gp : String → Except String PyValue) (G G2 : Graph)
    (a : String) (h : getEsCol G2 a = getEsCol G a) :
    edgeDecode gp G2 a = edgeDecode gp G a := by
  simp only [edgeDecode, h]

lemma read_node_attrs_cons_noconv (gp : String → Except String PyValue)
    (b : String) (rest : List String) (G : Graph) (warns : List String)
    (hconv : value_converter_by_node_attribute gp b = none) :
    read_node_attrs gp (b :: rest) G warns
      = read_node_attrs gp rest G (warns ++ ["Failed to read node attribute " ++ b]) := by
  rw [read_node_attrs, hconv]

lemma read_node_attrs_cons_nocol (gp : String → Except String PyValue)
    (b : String) (rest : List String) (G : Graph) (warns : List String)
    (conv : String → Except String PyValue)
    (hconv : value_converter_by_node_attribute gp b = some conv)
    (hcol : getVsCol G b = none) :
    read_node_attrs gp (b :: rest) G warns
      = read_node_attrs gp rest G (warns ++ ["Failed to read node attribute " ++ b]) := by
  rw [read_node_attrs, hconv, hcol]

lemma read_node_attrs_cons_badcol (gp : String → Except String PyValue)
    (b : String) (rest : List String) (G : Graph) (warns : List String)
    (conv : String → Except String PyValue) (col : List PyValue)
    (hconv : value_converter_by_node_attribute gp b = some conv)
    (hcol : getVsCol G b = some col)
    (hcc : convert_column conv col = none) :
    read_node_attrs gp (b :: rest) G warns
      = read_node_attrs gp rest G (warns ++ ["Failed to read node attribute " ++ b]) := by
  have h : read_node_attrs gp (b :: rest) G warns
      = match convert_column conv col with
        | none => read_node_attrs gp rest G
            (warns ++ ["Failed to read node attribute " ++ b])
        | some newCol => read_node_attrs gp rest (setVsCol G b newCol) warns := by
    rw [read_node_attrs, hconv, hcol]
  rw [hcc] at h
  exact h

lemma read_node_attrs_cons_ok (gp : String → Except String PyValue)
    (b : String) (rest : List String) (G : Graph) (warns : List String)
    (conv : String → Except String PyValue) (col newCol : List PyValue)
    (hconv : value_converter_by_node_attribute gp b = some conv)
    (hcol : getVsCol G b = some col)
    (hcc : convert_column conv col = some newCol) :
    read_node_attrs gp (b :: rest) G warns
      = read_node_attrs gp rest (setVsCol G b newCol) warns := by
  have h : read_node_attrs gp (b :: rest) G warns
      = match convert_column conv col with
        | none => read_node_attrs gp rest G
            (warns ++ ["Failed to read node attribute " ++ b])
        | some newCol => read_node_attrs gp rest (setVsCol G b newCol) warns := by
    rw [read_node_attrs, hconv, hcol]
  rw [hcc] at h
  exact h

lemma read_edge_attrs_cons_noconv (gp : String → Except String PyValue)
    (b : String) (rest : List String) (G : Graph) (warns : List String)
    (hconv : value_converter_by_edge_attribute gp b = none) :
    read_edge_attrs gp (b :: rest) G warns
      = read_edge_attrs gp rest G (warns ++ ["Failed to read edge attribute " ++ b]) := by
  rw [read_edge_attrs, hconv]

lemma read_edge_attrs_cons_nocol (gp : String → Except String PyValue)
    (b : String) (rest : List String) (G : Graph) (warns : List String)
    (conv : String → Except String PyValue)
    (hconv : value_converter_by_edge_attribute gp b = some conv)
    (hcol : getEsCol G b = none) :
    read_edge_attrs gp (b :: rest) G warns
      = read_edge_attrs gp rest G (warns ++ ["Failed to read edge attribute " ++ b]) := by
  rw [read_edge_attrs, hconv, hcol]

lemma read_edge_attrs_cons_badcol (gp : String → Except String PyValue)
    (b : String) (rest : List String) (G : Graph) (warns : List String)
    (conv : String → Except String PyValue) (col : List PyValue)
    (hconv : value_converter_by_edge_attribute gp b = some conv)
    (hcol : getEsCol G b = some col)
    (hcc : convert_column conv col = none) :
    read_edge_attrs gp (b :: rest) G warns
      = read_edge_attrs gp rest G (warns ++ ["Failed to read edge attribute " ++ b]) := by
  have h : read_edge_attrs gp (b :: rest) G warns
      = match convert_column conv col with
        | none => read_edge_attrs gp rest G
            (warns ++ ["Failed to read edge attribute " ++ b])
        | some newCol => read_edge_attrs gp rest (setEsCol G b newCol) warns := by
    rw [read_edge_attrs, hconv, hcol]
  rw [hcc] at h
  exact h

lemma read_edge_attrs_cons_ok (gp : String → Except String PyValue)
    (b : String) (rest : List String) (G : Graph) (warns : List String)
    (conv : String → Except String PyValue) (col newCol : List PyValue)
    (hconv : value_converter_by_edge_attribute gp b = some conv)
    (hcol : getEsCol G b = some col)
    (hcc : convert_column conv col = some newCol) :
    read_edge_attrs gp (b :: rest) G warns
      = read_edge_attrs gp rest (setEsCol G b newCol) warns := by
  have h : read_edge_attrs gp (b :: rest) G warns
      = match convert_column conv col with
        | none => read_edge_attrs gp rest G
            (warns ++ ["Failed to read edge attribute " ++ b])
        | some newCol => read_edge_attrs gp rest (setEsCol G b newCol) warns := by
    rw [read_edge_attrs, hconv, hcol]
  rw [hcc] at h
  exact h

lemma read_node_attrs_esAttrs (gp : String → Except String PyValue) :
    ∀ (names : List String) (G : Graph) (warns : List String),
      ((read_node_attrs gp names G warns).1).esAttrs = G.esAttrs := by
  intro names
  induction names with
  | nil => intro G warns; rfl
  | cons b rest ih =>
    intro G warns
    cases hconv : value_converter_by_node_attribute gp b with
    | none =>
      rw [read_node_attrs_cons_noconv _ _ _ _ _ hconv]
      exact ih G _
    | some conv =>
      cases hcol : getVsCol G b with
      | none =>
        rw [read_node_attrs_cons_nocol _ _ _ _ _ _ hconv hcol]
        exact ih G _
      | some col =>
        cases hcc : convert_column conv col with
        | none =>
          rw [read_node_attrs_cons_badcol _ _ _ _ _ _ _ hconv hcol hcc]
          exact ih G _
        | some newCol =>
          rw [read_node_attrs_cons_ok _ _ _ _ _ _ _ _ hconv hcol hcc]
          exact ih (setVsCol G b newCol) warns

lemma read_node_attrs_numEs (gp : String → Except String PyValue) :
    ∀ (names : List String) (G : Graph) (warns : List String),
      ((read_node_attrs gp names G warns).1).numEs = G.numEs := by
  intro names
  induction names with
  | nil => intro G warns; rfl
  | cons b rest ih =>
    intro G warns
    cases hconv : value_converter_by_node_attribute gp b with
    | none =>
      rw [read_node_attrs_cons_noconv _ _ _ _ _ hconv]
      exact ih G _
    | some conv =>
      cases hcol : getVsCol G b with
      | none =>
        rw [read_node_attrs_cons_nocol _ _ _ _ _ _ hconv hcol]
        exact ih G _
      | some col =>
        cases hcc : convert_column conv col with
        | none =>
          rw [read_node_attrs_cons_badcol _ _ _ _ _ _ _ hconv hcol hcc]
          exact ih G _
        | some newCol =>
          rw [read_node_attrs_cons_ok _ _ _ _ _ _ _ _ hconv hcol hcc]
          exact ih (setVsCol G b newCol) warns

lemma read_edge_attrs_vsAttrs (gp : String → Except String PyValue) :
    ∀ (names : List String) (G : Graph) (warns : List String),
      ((read_edge_attrs gp names G warns).1).vsAttrs = G.vsAttrs := by
  intro names
  induction names with
  | nil => intro G warns; rfl
  | cons b rest ih =>
    intro G warns
    cases hconv : value_converter_by_edge_attribute gp b with
    | none =>
      rw [read_edge_attrs_cons_noconv _ _ _ _ _ hconv]
      exact ih G _
    | some conv =>
      cases hcol : getEsCol G b with
      | none =>
        rw [read_edge_attrs_cons_nocol _ _ _ _ _ _ hconv hcol]
        exact ih G _
      | some col =>
        cases hcc : convert_column conv col with
        | none =>
          rw [read_edge_attrs_cons_badcol _ _ _ _ _ _ _ hconv hcol hcc]
          exact ih G _
        | some newCol =>
          rw [read_edge_attrs_cons_ok _ _ _ _ _ _ _ _ hconv hcol hcc]
          exact ih (setEsCol G b newCol) warns

lemma read_node_attrs_getVsCol_not_mem (gp : String → Except String PyValue) :
    ∀ (names : List String) (G : Graph) (warns : List String) (a : String),
      a ∉ names →
      getVsCol ((read_node_attrs gp names G warns).1) a = getVsCol G a := by
  intro names
  induction names with
  | nil => intro G warns a _; rfl
  | cons b rest ih =>
    intro G warns a ha
    have hab : a ≠ b := fun h => ha (h ▸ List.mem_cons_self b rest)
    have har : a ∉ rest := fun h => ha (List.mem_cons_of_mem b h)
    cases hconv : value_converter_by_node_attribute gp b with
    | none =>
      rw [read_node_attrs_cons_noconv _ _ _ _ _ hconv]
      exact ih G _ a har
    | some conv =>
      cases hcol : getVsCol G b with
      | none =>
        rw [read_node_attrs_cons_nocol _ _ _ _ _ _ hconv hcol]
        exact ih G _ a har
      | some col =>
        cases hcc : convert_column conv col with
        | none =>
          rw [read_node_attrs_cons_badcol _ _ _ _ _ _ _ hconv hcol hcc]
          exact ih G _ a har
        | some newCol =>
          rw [read_node_attrs_cons_ok _ _ _ _ _ _ _ _ hconv hcol hcc]
          rw [ih (setVsCol G b newCol) warns a har]
          exact getVsCol_setVsCol_ne G b a newCol (fun h => hab h.symm)

lemma read_edge_attrs_getEsCol_not_mem (gp : String → Except String PyValue) :
    ∀ (names : List String) (G : Graph) (warns : List String) (a : String),
      a ∉ names →
      getEsCol ((read_edge_attrs gp names G warns).1) a = getEsCol G a := by
  intro names
  induction names with
  | nil => intro G warns a _; rfl
  | cons b rest ih =>
    intro G warns a ha
    have hab : a ≠ b := fun h => ha (h ▸ List.mem_cons_self b rest)
    have har : a ∉ rest := fun h => ha (List.mem_cons_of_mem b h)
    cases hconv : value_converter_by_edge_attribute gp b with
    | none =>
      rw [read_edge_attrs_cons_noconv _ _ _ _ _ hconv]
      exact ih G _ a har
    | some conv =>
      cases hcol : getEsCol G b with
      | none =>
        rw [read_edge_attrs_cons_nocol _ _ _ _ _ _ hconv hcol]
        exact ih G _ a har
      | some col =>
        cases hcc : convert_column conv col with
        | none =>
          rw [read_edge_attrs_cons_badcol _ _ _ _ _ _ _ hconv hcol hcc]
          exact ih G _ a har
        | some newCol =>
          rw [read_edge_attrs_cons_ok _ _ _ _ _ _ _ _ hconv hcol hcc]
          rw [ih (setEsCol G b newCol) warns a har]
          exact getEsCol_setEsCol_ne G b a newCol (fun h => hab h.symm)

lemma read_node_attrs_warns_mono (gp : String → Except String PyValue) :
    ∀ (names : List String) (G : Graph) (warns : List String) (w : String),
      w ∈ warns → w ∈ (read_node_attrs gp names G warns).2 := by
  intro names
  induction names with
  | nil => intro G warns w hw; exact hw
  | cons b rest ih =>
    intro G warns w hw
    cases hconv : value_converter_by_node_attribute gp b with
    | none =>
      rw [read_node_attrs_cons_noconv _ _ _ _ _ hconv]
      exact ih G _ w (List.mem_append_left _ hw)
    | some conv =>
      cases hcol : getVsCol G b with
      | none =>
        rw [read_node_attrs_cons_nocol _ _ _ _ _ _ hconv hcol]
        exact ih G _ w (List.mem_append_left _ hw)
      | some col =>
        cases hcc : convert_column conv col with
        | none =>
          rw [read_node_attrs_cons_badcol _ _ _ _ _ _ _ hconv hcol hcc]
          exact ih G _ w (List.mem_append_left _ hw)
        | some newCol =>
          rw [read_node_attrs_cons_ok _ _ _ _ _ _ _ _ hconv hcol hcc]
          exact ih (setVsCol G b newCol) warns w hw

lemma read_edge_attrs_warns_mono (gp : String → Except String PyValue) :
    ∀ (names : List String) (G : Graph) (warns : List String) (w : String),
      w ∈ warns → w ∈ (read_edge_attrs gp names G warns).2 := by
  intro names
  induction names with
  | nil => intro G warns w hw; exact hw
  | cons b rest ih =>
    intro G warns w hw
    cases hconv : value_converter_by_edge_attribute gp b with
    | none =>
      rw [read_edge_attrs_cons_noconv _ _ _ _ _ hconv]
      exact ih G _ w (List.mem_append_left _ hw)
    | some conv =>
      cases hcol : getEsCol G b with
      | none =>
        rw [read_edge_attrs_cons_nocol _ _ _ _ _ _ hconv hcol]
        exact ih G _ w (List.mem_append_left _ hw)
      | some col =>
        cases hcc : convert_column conv col with
        | none =>
          rw [read_edge_attrs_cons_badcol _ _ _ _ _ _ _ hconv hcol hcc]
          exact ih G _ w (List.mem_append_left _ hw)
        | some newCol =>
          rw [read_edge_attrs_cons_ok _ _ _ _ _ _ _ _ hconv hcol hcc]
          exact ih (setEsCol G b newCol) warns w hw

lemma read_node_attrs_spec (gp : String → Except String PyValue) :
    ∀ (names : List String) (G : Graph) (warns : List String),
      names.Nodup →
      ∀ a ∈ names,
        (nodeDecode gp G a = none →
          getVsCol ((read_node_attrs gp names G warns).1) a = getVsCol G a ∧
            ("Failed to read node attribute " ++ a)
              ∈ (read_node_attrs gp names G warns).2) ∧
        (∀ c, nodeDecode gp G a = some c →
          getVsCol ((read_node_attrs gp names G warns).1) a = some c) := by
  intro names
  induction names with
  | nil => intro G warns _ a ha; exact absurd ha (List.not_mem_nil a)
  | cons b rest ih =>
    intro G warns hnd a ha
    rw [List.nodup_cons] at hnd
    obtain ⟨hbr, hndr⟩ := hnd
    rcases List.mem_cons.mp ha with hab | har
    · subst hab
      cases hconv : value_converter_by_node_attribute gp a with
      | none =>
        have hdec : nodeDecode gp G a = none := by simp [nodeDecode, hconv]
        rw [read_node_attrs_cons_noconv _ _ _ _ _ hconv]
        constructor
        · intro _
          refine ⟨read_node_attrs_getVsCol_not_mem gp rest G _ a hbr, ?_⟩
          exact read_node_attrs_warns_mono gp rest G _ _
            (List.mem_append_right _ (List.mem_singleton_self _))
        · intro c hc
          rw [hdec] at hc
          exact Option.noConfusion hc
      | some conv =>
        cases hcol : getVsCol G a with
        | none =>
          have hdec : nodeDecode gp G a = none := by simp [nodeDecode, hconv, hcol]
          rw [read_node_attrs_cons_nocol _ _ _ _ _ _ hconv hcol]
          constructor
          · intro _
            refine ⟨(read_node_attrs_getVsCol_not_mem gp rest G _ a hbr).trans hcol, ?_⟩
            exact read_node_attrs_warns_mono gp rest G _ _
              (List.mem_append_right _ (List.mem_singleton_self _))
          · intro c hc
            rw [hdec] at hc
            exact Option.noConfusion hc
        | some col =>
          cases hcc : convert_column conv col with
          | none =>
            have hdec : nodeDecode gp G a = none := by
              simp [nodeDecode, hconv, hcol, hcc]
            rw [read_node_attrs_cons_badcol _ _ _ _ _ _ _ hconv hcol hcc]
            constructor
            · intro _
              refine ⟨(read_node_attrs_getVsCol_not_mem gp rest G _ a hbr).trans hcol, ?_⟩
              exact read_node_attrs_warns_mono gp rest G _ _
                (List.mem_append_right _ (List.mem_singleton_self _))
            · intro c hc
              rw [hdec] at hc
              exact Option.noConfusion hc
          | some newCol =>
            have hdec : nodeDecode gp G a = some newCol := by
              simp [nodeDecode, hconv, hcol, hcc]
            rw [read_node_attrs_cons_ok _ _ _ _ _ _ _ _ hconv hcol hcc]
            constructor
            · intro h
              rw [hdec] at h
              exact Option.noConfusion h
            · intro c hc
              rw [hdec] at hc
              obtain rfl : newCol = c := Option.some.inj hc
              rw [read_node_attrs_getVsCol_not_mem gp rest _ warns a hbr]
              exact getVsCol_setVsCol_self G a newCol (by rw [hcol]; rfl)
    · have hab : a ≠ b := fun h => hbr (h ▸ har)
      cases hconv : value_converter_by_node_attribute gp b with
      | none =>
        rw [read_node_attrs_cons_noconv _ _ _ _ _ hconv]
        exact ih G _ hndr a har
      | some conv =>
        cases hcol : getVsCol G b with
        | none =>
          rw [read_node_attrs_cons_nocol _ _ _ _ _ _ hconv hcol]
          exact ih G _ hndr a har
        | some col =>
          cases hcc : convert_column conv col with
          | none =>
            rw [read_node_attrs_cons_badcol _ _ _ _ _ _ _ hconv hcol hcc]
            exact ih G _ hndr a har
          | some newCol =>
            rw [read_node_attrs_cons_ok _ _ _ _ _ _ _ _ hconv hcol hcc]
            have hcols : getVsCol (setVsCol G b newCol) a = getVsCol G a :=
              getVsCol_setVsCol_ne G b a newCol (fun h => hab h.symm)
            have hdeceq : nodeDecode gp (setVsCol G b newCol) a = nodeDecode gp G a :=
              nodeDecode_congr gp G _ a hcols
            have h := ih (setVsCol G b newCol) warns hndr a har
            rw [hdeceq, hcols] at h
            exact h

lemma read_edge_attrs_spec (gp : String → Except String PyValue) :
    ∀ (names : List String) (G : Graph) (warns : List String),
      names.Nodup →
      ∀ a ∈ names,
        (edgeDecode gp G a = none →
          getEsCol ((read_edge_attrs gp names G warns).1) a = getEsCol G a ∧
            ("Failed to read edge attribute " ++ a)
              ∈ (read_edge_attrs gp names G warns).2) ∧
        (∀ c, edgeDecode gp G a = some c →
          getEsCol ((read_edge_attrs gp names G warns).1) a = some c) := by
  intro names
  induction names with
  | nil => intro G warns _ a ha; exact absurd ha (List.not_mem_nil a)
  | cons b rest ih =>
    intro G warns hnd a ha
    rw [List.nodup_cons] at hnd
    obtain ⟨hbr, hndr⟩ := hnd
    rcases List.mem_cons.mp ha with hab | har
    · subst hab
      cases hconv : value_converter_by_edge_attribute gp a with
      | none =>
        have hdec : edgeDecode gp G a = none := by simp [edgeDecode, hconv]
        rw [read_edge_attrs_cons_noconv _ _ _ _ _ hconv]
        constructor
        · intro _
          refine ⟨read_edge_attrs_getEsCol_not_mem gp rest G _ a hbr, ?_⟩
          exact read_edge_attrs_warns_mono gp rest G _ _
            (List.mem_append_right _ (List.mem_singleton_self _))
        · intro c hc
          rw [hdec] at hc
          exact Option.noConfusion hc
      | some conv =>
        cases hcol : getEsCol G a with
        | none =>
          have hdec : edgeDecode gp G a = none := by simp [edgeDecode, hconv, hcol]
          rw [read_edge_attrs_cons_nocol _ _ _ _ _ _ hconv hcol]
          constructor
          · intro _
            refine ⟨(read_edge_attrs_getEsCol_not_mem gp rest G _ a hbr).trans hcol, ?_⟩
            exact read_edge_attrs_warns_mono gp rest G _ _
              (List.mem_append_right _ (List.mem_singleton_self _))
          · intro c hc
            rw [hdec] at hc
            exact Option.noConfusion hc
        | some col =>
          cases hcc : convert_column conv col with
          | none =>
            have hdec : edgeDecode gp G a = none := by
              simp [edgeDecode, hconv, hcol, hcc]
            rw [read_edge_attrs_cons_badcol _ _ _ _ _ _ _ hconv hcol hcc]
            constructor
            · intro _
              refine ⟨(read_edge_attrs_getEsCol_not_mem gp rest G _ a hbr).trans hcol, ?_⟩
              exact read_edge_attrs_warns_mono gp rest G _ _
                (List.mem_append_right _ (List.mem_singleton_self _))
            · intro c hc
              rw [hdec] at hc
              exact Option.noConfusion hc
          | some newCol =>
            have hdec : edgeDecode gp G a = some newCol := by
              simp [edgeDecode, hconv, hcol, hcc]
            rw [read_edge_attrs_cons_ok _ _ _ _ _ _ _ _ hconv hcol hcc]
            constructor
            · intro h
              rw [hdec] at h
              exact Option.noConfusion h
            · intro c hc
              rw [hdec] at hc
              obtain rfl : newCol = c := Option.some.inj hc
              rw [read_edge_attrs_getEsCol_not_mem gp rest _ warns a hbr]
              exact getEsCol_setEsCol_self G a newCol (by rw [hcol]; rfl)
    · have hab : a ≠ b := fun h => hbr (h ▸ har)
      cases hconv : value_converter_by_edge_attribute gp b with
      | none =>
        rw [read_edge_attrs_cons_noconv _ _ _ _ _ hconv]
        exact ih G _ hndr a har
      | some conv =>
        cases hcol : getEsCol G b with
        | none =>
          rw [read_edge_attrs_cons_nocol _ _ _ _ _ _ hconv hcol]
          exact ih G _ hndr a har
        | some col =>
          cases hcc : convert_column conv col with
          | none =>
            rw [read_edge_attrs_cons_badcol _ _ _ _ _ _ _ hconv hcol hcc]
            exact ih G _ hndr a har
          | some newCol =>
            rw [read_edge_attrs_cons_ok _ _ _ _ _ _ _ _ hconv hcol hcc]
            have hcols : getEsCol (setEsCol G b newCol) a = getEsCol G a :=
              getEsCol_setEsCol_ne G b a newCol (fun h => hab h.symm)
            have hdeceq : edgeDecode gp (setEsCol G b newCol) a = edgeDecode gp G a :=
              edgeDecode_congr gp G _ a hcols
            have h := ih (setEsCol G b newCol) warns hndr a har
            rw [hdeceq, hcols] at h
            exact h

lemma read_graphml_no_id (gp : String → Except String PyValue) (G0 : Graph)
    (h : getVsCol G0 "id" = none) :
    read_graphml gp G0 = Except.error "KeyError: id" := by
  rw [read_graphml, h]

lemma read_graphml_run (gp : String → Except String PyValue) (G0 : Graph)
    (idcol : List PyValue) (h : getVsCol G0 "id" = some idcol) :
    read_graphml gp G0 =
      (if (delVsCol G0 "id").numVs = 0 then Except.error "IndexError: vertex 0"
       else
         match read_node_attrs gp (vsAttrNames (delVsCol G0 "id"))
             (delVsCol G0 "id") [] with
         | (G2, w1) =>
           if G2.numEs = 0 then Except.error "IndexError: edge 0"
           else
             match read_edge_attrs gp (esAttrNames G2) G2 w1 with
             | (G3, w2) => Except.ok (G3, w2)) := by
  rw [read_graphml, h]

/-- C10: the import determines the attribute schema by probing only the first
node and the first edge: a parsed graph with no nodes or no edges makes
`read_graphml` raise (an `IndexError` from `G.vs[0]`/`G.es[0]`, or the
`KeyError` from the `id` column) instead of returning a best-effort graph,
while any graph that has an `id` column, at least one node and at least one
edge is imported successfully regardless of its attribute contents. -/
theorem read_graphml_schema_probe :
    (∀ (gp : String → Except String PyValue) (G : Graph),
        G.numVs = 0 → (read_graphml gp G).isOk = false) ∧
    (∀ (gp : String → Except String PyValue) (G : Graph),
        G.numEs = 0 → (read_graphml gp G).isOk = false) ∧
    (∀ (gp : String → Except String PyValue) (G : Graph),
        (getVsCol G "id").isSome = true → G.numVs ≠ 0 → G.numEs ≠ 0 →
        (read_graphml gp G).isOk = true) := by
  refine ⟨?_, ?_, ?_⟩
  · intro gp G h
    cases hid : getVsCol G "id" with
    | none => rw [read_graphml_no_id gp G hid]; rfl
    | some idcol =>
      rw [read_graphml_run gp G idcol hid,
        if_pos (show (delVsCol G "id").numVs = 0 from h)]
      rfl
  · intro gp G h
    cases hid : getVsCol G "id" with
    | none => rw [read_graphml_no_id gp G hid]; rfl
    | some idcol =>
      by_cases hv : (delVsCol G "id").numVs = 0
      · rw [read_graphml_run gp G idcol hid, if_pos hv]; rfl
      · rcases hrn : read_node_attrs gp (vsAttrNames (delVsCol G "id"))
            (delVsCol G "id") [] with ⟨G2, w1⟩
        have h1 : read_graphml gp G
            = match read_node_attrs gp (vsAttrNames (delVsCol G "id"))
                (delVsCol G "id") [] with
              | (G2, w1) =>
                if G2.numEs = 0 then Except.error "IndexError: edge 0"
                else
                  match read_edge_attrs gp (esAttrNames G2) G2 w1 with
                  | (G3, w2) => Except.ok (G3, w2) := by
          rw [read_graphml_run gp G idcol hid, if_neg hv]
        rw [hrn] at h1
        have h2 : read_graphml gp G
            = if G2.numEs = 0 then Except.error "IndexError: edge 0"
              else
                match read_edge_attrs gp (esAttrNames G2) G2 w1 with
                | (G3, w2) => Except.ok (G3, w2) := h1
        have hE : G2.numEs = 0 := by
          have hp := read_node_attrs_numEs gp (vsAttrNames (delVsCol G "id"))
            (delVsCol G "id") []
          rw [hrn] at hp
          exact hp.trans h
        rw [h2, if_pos hE]
        rfl
  · intro gp G hid0 hv0 he0
    obtain ⟨idcol, hid⟩ := Option.isSome_iff_exists.mp hid0
    rcases hrn : read_node_attrs gp (vsAttrNames (delVsCol G "id"))
        (delVsCol G "id") [] with ⟨G2, w1⟩
    have h1 : read_graphml gp G
        = match read_node_attrs gp (vsAttrNames (delVsCol G "id"))
            (delVsCol G "id") [] with
          | (G2, w1) =>
            if G2.numEs = 0 then Except.error "IndexError: edge 0"
            else
              match read_edge_attrs gp (esAttrNames G2) G2 w1 with
              | (G3, w2) => Except.ok (G3, w2) := by
      rw [read_graphml_run gp G idcol hid,
        if_neg (show ¬ (delVsCol G "id").numVs = 0 from hv0)]
    rw [hrn] at h1
    have h2 : read_graphml gp G
        = if G2.numEs = 0 then Except.error "IndexError: edge 0"
          else
            match read_edge_attrs gp (esAttrNames G2) G2 w1 with
            | (G3, w2) => Except.ok (G3, w2) := h1
    have hE : ¬ G2.numEs = 0 := by
      have hp := read_node_attrs_numEs gp (vsAttrNames (delVsCol G "id"))
        (delVsCol G "id") []
      rw [hrn] at hp
      rw [show G2.numEs = G.numEs from hp]
      exact he0
    rw [h2, if_neg hE]
    rcases read_edge_attrs gp (esAttrNames G2) G2 w1 with ⟨G3, w2⟩
    rfl

theorem read_graphml_schema_probe_witness :
    (read_graphml (fun _ => Except.error "wkt")
        ⟨0, 0, ([] : List (String × List PyValue)), []⟩).isOk = false ∧
    (read_graphml (fun _ => Except.error "wkt")
        ⟨2, 0, [("id", [PyValue.pystr "0", PyValue.pystr "1"])], []⟩).isOk = false ∧
    (read_graphml (fun _ => Except.error "wkt")
        ⟨1, 1, [("id", [PyValue.pystr "0"])], []⟩).isOk = true :=
  ⟨read_graphml_schema_probe.1 _ _ rfl,
   read_graphml_schema_probe.2.1 _ _ rfl,
   read_graphml_schema_probe.2.2 _ _ rfl (by decide) (by decide)⟩

/-- C9: during a successful import, each discovered attribute key is decoded
in isolation: if a key has no registered converter or any of its values
fails to decode, only that key keeps its raw wire-string column and a
warning about that key is logged, while every key whose whole column
decodes gets the decoded column — and the import as a whole still succeeds
(the discovered node keys are those of the graph after the raw `id` column
is dropped). -/
theorem read_graphml_per_attribute_isolation
    (gp : String → Except String PyValue) (G0 : Graph)
    (hid : (getVsCol G0 "id").isSome = true)
    (hv : G0.numVs ≠ 0) (he : G0.numEs ≠ 0)
    (hndn : (vsAttrNames (delVsCol G0 "id")).Nodup)
    (hnde : (esAttrNames G0).Nodup) :
    ∃ (G3 : Graph) (warns : List String),
      read_graphml gp G0 = Except.ok (G3, warns) ∧
      (∀ a ∈ vsAttrNames (delVsCol G0 "id"),
        (nodeDecode gp (delVsCol G0 "id") a = none →
          getVsCol G3 a = getVsCol (delVsCol G0 "id") a ∧
            ("Failed to read node attribute " ++ a) ∈ warns) ∧
        (∀ c, nodeDecode gp (delVsCol G0 "id") a = some c →
          getVsCol G3 a = some c)) ∧
      (∀ a ∈ esAttrNames G0,
        (edgeDecode gp G0 a = none →
          getEsCol G3 a = getEsCol G0 a ∧
            ("Failed to read edge attribute " ++ a) ∈ warns) ∧
        (∀ c, edgeDecode gp G0 a = some c →
          getEsCol G3 a = some c)) := by
  obtain ⟨idcol, hidc⟩ := Option.isSome_iff_exists.mp hid
  rcases hrn : read_node_attrs gp (vsAttrNames (delVsCol G0 "id"))
      (delVsCol G0 "id") [] with ⟨G2, w1⟩
  rcases hre : read_edge_attrs gp (esAttrNames G2) G2 w1 with ⟨G3, w2⟩
  have h1 : read_graphml gp G0
      = match read_node_attrs gp (vsAttrNames (delVsCol G0 "id"))
          (delVsCol G0 "id") [] with
        | (G2, w1) =>
          if G2.numEs = 0 then Except.error "IndexError: edge 0"
          else
            match read_edge_attrs gp (esAttrNames G2) G2 w1 with
            | (G3, w2) => Except.ok (G3, w2) := by
    rw [read_graphml_run gp G0 idcol hidc,
      if_neg (show ¬ (delVsCol G0 "id").numVs = 0 from hv)]
  rw [hrn] at h1
  have h2 : read_graphml gp G0
      = if G2.numEs = 0 then Except.error "IndexError: edge 0"
        else
          match read_edge_attrs gp (esAttrNames G2) G2 w1 with
          | (G3, w2) => Except.ok (G3, w2) := h1
  have hE2 : ¬ G2.numEs = 0 := by
    have hp := read_node_attrs_numEs gp (vsAttrNames (delVsCol G0 "id"))
      (delVsCol G0 "id") []
    rw [hrn] at hp
    rw [show G2.numEs = G0.numEs from hp]
    exact he
  rw [if_neg hE2, hre] at h2
  refine ⟨G3, w2, h2, ?_, ?_⟩
  · intro a ha
    have hspec := read_node_attrs_spec gp (vsAttrNames (delVsCol G0 "id"))
      (delVsCol G0 "id") [] hndn a ha
    rw [hrn] at hspec
    dsimp only at hspec
    have hG3cols : getVsCol G3 a = getVsCol G2 a := by
      have h := read_edge_attrs_vsAttrs gp (esAttrNames G2) G2 w1
      rw [hre] at h
      show getCol G3.vsAttrs a = getCol G2.vsAttrs a
      rw [show G3.vsAttrs = G2.vsAttrs from h]
    have hw12 : ∀ w ∈ w1, w ∈ w2 := by
      intro w hw
      have h := read_edge_attrs_warns_mono gp (esAttrNames G2) G2 w1 w hw
      rw [hre] at h
      exact h
    constructor
    · intro hdec
      have hsp := hspec.1 hdec
      exact ⟨hG3cols.trans hsp.1, hw12 _ hsp.2⟩
    · intro c hc
      exact hG3cols.trans (hspec.2 c hc)
  · intro a ha
    have hEs : G2.esAttrs = G0.esAttrs := by
      have h := read_node_attrs_esAttrs gp (vsAttrNames (delVsCol G0 "id"))
        (delVsCol G0 "id") []
      rw [hrn] at h
      exact h
    have hnames : esAttrNames G2 = esAttrNames G0 := by
      show G2.esAttrs.map Prod.fst = G0.esAttrs.map Prod.fst
      rw [hEs]
    have hcols2 : ∀ b, getEsCol G2 b = getEsCol G0 b := by
      intro b
      show getCol G2.esAttrs b = getCol G0.esAttrs b
      rw [hEs]
    have ha2 : a ∈ esAttrNames G2 := by rw [hnames]; exact ha
    have hnd2 : (esAttrNames G2).Nodup := by rw [hnames]; exact hnde
    have hspec := read_edge_attrs_spec gp (esAttrNames G2) G2 w1 hnd2 a ha2
    rw [hre] at hspec
    dsimp only at hspec
    have hdeceq : edgeDecode gp G2 a = edgeDecode gp G0 a :=
      edgeDecode_congr gp G0 G2 a (hcols2 a)
    rw [hdeceq, hcols2 a] at hspec
    exact hspec

theorem read_graphml_per_attribute_isolation_witness :
    ∃ (G3 : Graph) (warns : List String),
      read_graphml geomFail importSample = Except.ok (G3, warns) ∧
      (∀ a ∈ vsAttrNames (delVsCol importSample "id"),
        (nodeDecode geomFail (delVsCol importSample "id") a = none →
          getVsCol G3 a = getVsCol (delVsCol importSample "id") a ∧
            ("Failed to read node attribute " ++ a) ∈ warns) ∧
        (∀ c, nodeDecode geomFail (delVsCol importSample "id") a = some c →
          getVsCol G3 a = some c)) ∧
      (∀ a ∈ esAttrNames importSample,
        (edgeDecode geomFail importSample a = none →
          getEsCol G3 a = getEsCol importSample a ∧
            ("Failed to read edge attribute " ++ a) ∈ warns) ∧
        (∀ c, edgeDecode geomFail importSample a = some c →
          getEsCol G3 a = some c)) :=
  read_graphml_per_attribute_isolation geomFail importSample (by decide) (by decide)
    (by decide) (by decide) (by decide)
